import Mathlib

/-!
Verification of the frame-to-frame object tracker (`ObjectTracker` in
`src/services/geminiService.ts`).

The tracker consumes a list of per-frame detections plus a timestamp and
returns the same detections annotated with tracking metadata.  JavaScript
numbers are modelled exactly: the bounding-box coordinates supplied by the
vision model are integers on a 0–1000 scale (`ℤ`), all derived real-valued
quantities (centroids, velocities, IoU) are rationals (`ℚ`), and
`Math.floor` is `Int.floor`.  The mutable `tracks` array and `nextId`
counter of the class become an explicit `TrackerState` threaded through a
pure `update` function; in-place mutation of the caller's detection array
becomes `List.set` at the detection's index in the input list.
-/

/-- `DetectionItem.type` in `src/types.ts`. -/
inductive DKind where
  | vehicle
  | pedestrian
  | infrastructure
  | other
deriving DecidableEq, Repr

/-- `laneEvent` / `laneStatus` values (`'Stable' | 'Lane Change' | 'Merging'`). -/
inductive LaneStatus where
  | stable
  | laneChange
  | merging
deriving DecidableEq, Repr

/-- A bounding box `[ymin, xmin, ymax, xmax]`, normalized 0–1000 integers
(`box_2d` in `src/types.ts`); field order follows the array layout. -/
structure Box2d where
  ymin : ℤ
  xmin : ℤ
  ymax : ℤ
  xmax : ℤ
deriving DecidableEq, Repr

/-- `DetectionItem` from `src/types.ts`. -/
structure Det where
  object : String
  count : ℕ
  confidence : ℚ
  type : DKind
  box_2d : Option Box2d := none
  trackId : Option ℕ := none
  estimatedSpeed : Option ℤ := none
  laneEvent : Option LaneStatus := none
  isSpeeding : Option Bool := none
  isWrongWay : Option Bool := none
deriving DecidableEq, Repr

/-- `TrackedObject` from `src/services/geminiService.ts` (the JS field
`class` is spelled `cls` here because `class` is a Lean keyword).
`centroid` and `history` entries are `(x, y)` pairs normalized to 0–1. -/
structure TrackedObject where
  id : ℕ
  cls : String
  box : Box2d
  centroid : ℚ × ℚ
  history : List (ℚ × ℚ)
  missingFrames : ℕ
  speed : ℤ
  dy : ℚ
  laneStatus : LaneStatus
  createdAt : ℤ
deriving DecidableEq, Repr

/-- The private mutable state of an `ObjectTracker` instance. -/
structure TrackerState where
  tracks : List TrackedObject
  nextId : ℕ
deriving DecidableEq, Repr

/-- `private maxMissingFrames = 50`. -/
def maxMissingFrames : ℕ := 50

/-- `private iouThreshold = 0.15`. -/
def iouThreshold : ℚ := 0.15

/-- `private SPEED_LIMIT = 80`. -/
def SPEED_LIMIT : ℤ := 80

/-- `private getCentroid(box)`: `[x, y]` with
`y = (box[0] + box[2]) / 2 / 1000` and `x = (box[1] + box[3]) / 2 / 1000`. -/
def getCentroid (b : Box2d) : ℚ × ℚ :=
  ((((b.xmin : ℚ) + (b.xmax : ℚ)) / 2) / 1000, (((b.ymin : ℚ) + (b.ymax : ℚ)) / 2) / 1000)

/-- `private calculateIoU(boxA, boxB)`. -/
def calculateIoU (boxA boxB : Box2d) : ℚ :=
  let yA := max boxA.ymin boxB.ymin
  let xA := max boxA.xmin boxB.xmin
  let yB := min boxA.ymax boxB.ymax
  let xB := min boxA.xmax boxB.xmax
  let interArea := max 0 (xB - xA) * max 0 (yB - yA)
  let boxAArea := (boxA.ymax - boxA.ymin) * (boxA.xmax - boxA.xmin)
  let boxBArea := (boxB.ymax - boxB.ymin) * (boxB.xmax - boxB.xmin)
  if boxAArea + boxBArea - interArea = 0 then 0
  else (interArea : ℚ) / ((boxAArea + boxBArea - interArea : ℤ) : ℚ)

/-- The filter `d => d.box_2d && d.type === 'vehicle'` building
`validDetections`. -/
def isValidDet (d : Det) : Bool :=
  d.box_2d.isSome && decide (d.type = DKind.vehicle)

/-- Indices (into the caller's detection list) of the detections that pass
the `validDetections` filter, in order.  The JS code works with the
filtered array; since it holds references into the original array, we keep
original indices instead. -/
def validIdxs (dets : List Det) : List ℕ :=
  (List.range dets.length).filter (fun i => ((dets[i]?).map isValidDet).getD false)

/-- Step 1 of `update`: `this.tracks.forEach(t => t.missingFrames++)`. -/
def ageTrack (t : TrackedObject) : TrackedObject :=
  { t with missingFrames := t.missingFrames + 1 }

/-- The inner loop of the matcher: scan the not-yet-assigned detection
indices in order, keeping `(bestMatchIndex, bestIoU)`, accepting a
candidate only when `iou > iouThreshold && iou > bestIoU`.  The JS loop
iterates the whole `validDetections` array and skips assigned indices; we
iterate the (order-preserving) list of still-unassigned indices, which
visits the same candidates in the same order. -/
def bestScan (tbox : Box2d) (dets : List Det) : List ℕ → Option ℕ × ℚ → Option ℕ × ℚ
  | [], best => best
  | i :: rest, best =>
      match (dets[i]?).bind Det.box_2d with
      | none => bestScan tbox dets rest best
      | some b =>
          let iou := calculateIoU tbox b
          if iouThreshold < iou ∧ best.2 < iou then bestScan tbox dets rest (some i, iou)
          else bestScan tbox dets rest best

/-- The `MATCH FOUND` branch of `update`: mutate the track and the matched
detection.  Returns the updated `(track, detection)`. -/
def matchUpdate (track : TrackedObject) (det : Det) (b : Box2d) : TrackedObject × Det :=
  let newCentroid := getCentroid b
  let deltaY := newCentroid.2 - track.centroid.2
  let absDeltaY := |deltaY|
  let speed := ⌊absDeltaY * 1000 * (1.5 : ℚ)⌋
  let hist1 := track.history ++ [newCentroid]
  let hist2 := if 10 < hist1.length then hist1.tail else hist1
  let lane :=
    if 2 ≤ hist2.length then
      let historyDepth := min hist2.length 4
      let startX := (hist2.getD (hist2.length - historyDepth) (0, 0)).1
      let endX := newCentroid.1
      if (0.03 : ℚ) < |endX - startX| then LaneStatus.laneChange else LaneStatus.stable
    else track.laneStatus
  let t := { track with
    missingFrames := 0
    box := b
    dy := deltaY
    speed := speed
    history := hist2
    laneStatus := lane
    centroid := newCentroid }
  (t, { det with trackId := some track.id, estimatedSpeed := some speed,
                 laneEvent := some lane })

/-- One iteration of the matching loop `this.tracks.forEach(track => ...)`.
The accumulator is `(detections, unassigned indices, tracks processed so
far)`; each processed track is appended, matched or not.  The two `none`
fallbacks after a successful scan are unreachable (the scan only returns
indices with a present box). -/
def matchStep (acc : List Det × List ℕ × List TrackedObject) (track : TrackedObject) :
    List Det × List ℕ × List TrackedObject :=
  match (bestScan track.box acc.1 acc.2.1 (none, 0)).1 with
  | none => (acc.1, acc.2.1, acc.2.2 ++ [track])
  | some i =>
      match acc.1[i]? with
      | none => (acc.1, acc.2.1, acc.2.2 ++ [track])
      | some d =>
          match d.box_2d with
          | none => (acc.1, acc.2.1, acc.2.2 ++ [track])
          | some b =>
              let td := matchUpdate track d b
              (acc.1.set i td.2, acc.2.1.filter (fun j => decide (j ≠ i)),
               acc.2.2 ++ [td.1])

/-- Step 3 of `update`: `unmatchedDetections.forEach(index => ...)` — create
a new track for one unmatched detection index.  Accumulator is
`(detections, tracks, nextId)`. -/
def createStep (timestamp : ℤ) (acc : List Det × List TrackedObject × ℕ) (i : ℕ) :
    List Det × List TrackedObject × ℕ :=
  match acc.1[i]? with
  | none => acc
  | some d =>
      match d.box_2d with
      | none => acc
      | some b =>
          let newCentroid := getCentroid b
          let newTrack : TrackedObject := {
            id := acc.2.2
            cls := d.object
            box := b
            centroid := newCentroid
            history := [newCentroid]
            missingFrames := 0
            speed := 0
            dy := 0
            laneStatus := LaneStatus.stable
            createdAt := timestamp }
          (acc.1.set i { d with trackId := some newTrack.id, estimatedSpeed := some 0,
                                laneEvent := some LaneStatus.stable },
           acc.2.1 ++ [newTrack], acc.2.2 + 1)

/-- `this.tracks.filter(t => t.missingFrames === 0 && Math.abs(t.dy) > 0.001)`. -/
def activeMovingTracks (tracks : List TrackedObject) : List TrackedObject :=
  tracks.filter (fun t => decide (t.missingFrames = 0 ∧ (0.001 : ℚ) < |t.dy|))

/-- The dominant-flow estimate of step 4 of `update`: average `dy` of the
active moving tracks, `0` when there are none. -/
def dominantFlow (tracks : List TrackedObject) : ℚ :=
  let a := activeMovingTracks tracks
  if 0 < a.length then (a.map TrackedObject.dy).sum / (a.length : ℚ) else 0

/-- `Math.sign`. -/
def jsSign (q : ℚ) : ℤ :=
  if 0 < q then 1 else if q < 0 then -1 else 0

/-- The body of the flag loop `validDetections.forEach(det => ...)` for one
detection: look up the detection's track and set `isSpeeding` /
`isWrongWay` when the thresholds are met.  `!det.trackId` is falsy-check
semantics: it holds when `trackId` is absent or `0`. -/
def flagOne (tracks : List TrackedObject) (dominantDy : ℚ) (d : Det) : Det :=
  if d.trackId.getD 0 = 0 then d
  else
    match tracks.find? (fun t => d.trackId == some t.id) with
    | none => d
    | some track =>
        let d1 := if SPEED_LIMIT < track.speed then { d with isSpeeding := some true } else d
        if (0.005 : ℚ) < |dominantDy| ∧ (0.005 : ℚ) < |track.dy| ∧
            jsSign dominantDy ≠ jsSign track.dy then
          { d1 with isWrongWay := some true }
        else d1

/-- One iteration of the flag loop, applied at detection index `i`. -/
def flagStep (tracks : List TrackedObject) (dominantDy : ℚ) (dets : List Det) (i : ℕ) :
    List Det :=
  match dets[i]? with
  | none => dets
  | some d => dets.set i (flagOne tracks dominantDy d)

/-- Steps 1–2 of `update`: age every track, then run the greedy matching
loop over the (aged) tracks.  Result: `(detections, unassigned indices,
updated tracks)`. -/
def matchPhase (s : TrackerState) (dets : List Det) :
    List Det × List ℕ × List TrackedObject :=
  (s.tracks.map ageTrack).foldl matchStep (dets, validIdxs dets, ([] : List TrackedObject))

/-- Step 3 of `update`: create a new track for every detection left
unmatched.  Result: `(detections, tracks, nextId)`. -/
def createPhase (s : TrackerState) (dets : List Det) (timestamp : ℤ) :
    List Det × List TrackedObject × ℕ :=
  (matchPhase s dets).2.1.foldl (createStep timestamp)
    ((matchPhase s dets).1, (matchPhase s dets).2.2, s.nextId)

/-- `public update(detections, timestamp)`: ages every track, greedily
matches tracks against the valid detections, creates tracks for unmatched
detections, computes the dominant flow and applies violation flags, and
finally evicts tracks with `missingFrames > maxMissingFrames`.  Returns the
new tracker state together with the (in-place annotated) detection list. -/
def update (s : TrackerState) (dets : List Det) (timestamp : ℤ) :
    TrackerState × List Det :=
  let c := createPhase s dets timestamp
  let dominantDy := dominantFlow c.2.1
  let dOut := (validIdxs dets).foldl (flagStep c.2.1 dominantDy) c.1
  ({ tracks := c.2.1.filter (fun t => decide (t.missingFrames ≤ maxMissingFrames))
     nextId := c.2.2 },
   dOut)

/-- The state of a freshly constructed `ObjectTracker`. -/
def initState : TrackerState := { tracks := [], nextId := 1 }

/-- `public reset()`: clears the track store and restarts the id counter. -/
def reset (_s : TrackerState) : TrackerState := { tracks := [], nextId := 1 }

/-- `public getActiveTracksCount()`. -/
def getActiveTracksCount (s : TrackerState) : ℕ :=
  (s.tracks.filter (fun t => decide (t.missingFrames = 0))).length

/-- Convenience: one `update` call viewed as a state transition (input =
detections plus timestamp), for iterating calls. -/
def stepState (s : TrackerState) (inp : List Det × ℤ) : TrackerState :=
  (update s inp.1 inp.2).1

/-- The intersection area computed inside `calculateIoU`. -/
def interAreaI (a b : Box2d) : ℤ :=
  max 0 (min a.xmax b.xmax - max a.xmin b.xmin) * max 0 (min a.ymax b.ymax - max a.ymin b.ymin)

/-- The denominator `boxAArea + boxBArea - interArea` of `calculateIoU`. -/
def unionDenom (a b : Box2d) : ℤ :=
  (a.ymax - a.ymin) * (a.xmax - a.xmin) + (b.ymax - b.ymin) * (b.xmax - b.xmin) - interAreaI a b

/-- A box is well-formed when its extents are nonnegative. -/
def WellFormed (b : Box2d) : Prop := b.ymin ≤ b.ymax ∧ b.xmin ≤ b.xmax

/-- A concrete vehicle detection used by the scenario claims. -/
def exDet (b : Box2d) : Det :=
  { object := "car", count := 1, confidence := 9/10, type := DKind.vehicle, box_2d := some b }

/-- The annotations `createStep` writes onto an unmatched detection. -/
def createAnnotate (nid : ℕ) (d : Det) : Det :=
  { d with trackId := some nid, estimatedSpeed := some 0, laneEvent := some LaneStatus.stable }

/-- The track record `createStep` builds for an unmatched detection. -/
def newTrackFor (timestamp : ℤ) (nid : ℕ) (d : Det) (b : Box2d) : TrackedObject :=
  { id := nid, cls := d.object, box := b, centroid := getCentroid b,
    history := [getCentroid b], missingFrames := 0, speed := 0, dy := 0,
    laneStatus := LaneStatus.stable, createdAt := timestamp }

/-- A concrete non-vehicle detection (excluded from tracking). -/
def pedDet : Det :=
  { object := "person", count := 1, confidence := 1/2, type := DKind.pedestrian }

/-- A concrete track at box `[0,0,100,100]` (as `update` would create it
from a detection there). -/
def ceTrack1 : TrackedObject :=
  { id := 1, cls := "car", box := ⟨0,0,100,100⟩, centroid := (1/20, 1/20),
    history := [(1/20, 1/20)], missingFrames := 0, speed := 0, dy := 0,
    laneStatus := LaneStatus.stable, createdAt := 0 }

/-- A concrete track at box `[10,0,110,100]`, created after `ceTrack1`. -/
def ceTrack2 : TrackedObject :=
  { id := 2, cls := "car", box := ⟨10,0,110,100⟩, centroid := (1/20, 3/50),
    history := [(1/20, 3/50)], missingFrames := 0, speed := 0, dy := 0,
    laneStatus := LaneStatus.stable, createdAt := 0 }

/-- A tracker state holding `ceTrack1` and `ceTrack2` (creation order
1 then 2): the counterexample state for the match-stability claim. -/
def ceState : TrackerState := { tracks := [ceTrack1, ceTrack2], nextId := 3 }

/-- A tracker state holding a single track. -/
def oneTrackState : TrackerState := { tracks := [ceTrack1], nextId := 2 }

/-- A lane of the wrong-way scenario: a 100×100 box in horizontal slot `k`,
shifted vertically by `shift`. -/
def flowDet (k shift : ℤ) : Det :=
  exDet ⟨300 + shift, 200 * k, 400 + shift, 200 * k + 100⟩

/-! ### Geometry lemmas (claim C8) -/

lemma calculateIoU_eq (a b : Box2d) :
    calculateIoU a b =
      if unionDenom a b = 0 then 0 else (interAreaI a b : ℚ) / ((unionDenom a b : ℤ) : ℚ) := rfl

lemma interAreaI_nonneg (a b : Box2d) : 0 ≤ interAreaI a b :=
  mul_nonneg (le_max_left 0 _) (le_max_left 0 _)

lemma interAreaI_le_left (a b : Box2d) (ha : WellFormed a) :
    interAreaI a b ≤ (a.ymax - a.ymin) * (a.xmax - a.xmin) := by
  obtain ⟨hay, hax⟩ := ha
  have hx : max 0 (min a.xmax b.xmax - max a.xmin b.xmin) ≤ a.xmax - a.xmin :=
    max_le (by omega) (by
      have h1 := min_le_left a.xmax b.xmax
      have h2 := le_max_left a.xmin b.xmin
      omega)
  have hy : max 0 (min a.ymax b.ymax - max a.ymin b.ymin) ≤ a.ymax - a.ymin :=
    max_le (by omega) (by
      have h1 := min_le_left a.ymax b.ymax
      have h2 := le_max_left a.ymin b.ymin
      omega)
  calc interAreaI a b ≤ (a.xmax - a.xmin) * (a.ymax - a.ymin) :=
        mul_le_mul hx hy (le_max_left 0 _) (by omega)
    _ = (a.ymax - a.ymin) * (a.xmax - a.xmin) := mul_comm _ _

lemma interAreaI_le_right (a b : Box2d) (hb : WellFormed b) :
    interAreaI a b ≤ (b.ymax - b.ymin) * (b.xmax - b.xmin) := by
  obtain ⟨hby, hbx⟩ := hb
  have hx : max 0 (min a.xmax b.xmax - max a.xmin b.xmin) ≤ b.xmax - b.xmin :=
    max_le (by omega) (by
      have h1 := min_le_right a.xmax b.xmax
      have h2 := le_max_right a.xmin b.xmin
      omega)
  have hy : max 0 (min a.ymax b.ymax - max a.ymin b.ymin) ≤ b.ymax - b.ymin :=
    max_le (by omega) (by
      have h1 := min_le_right a.ymax b.ymax
      have h2 := le_max_right a.ymin b.ymin
      omega)
  calc interAreaI a b ≤ (b.xmax - b.xmin) * (b.ymax - b.ymin) :=
        mul_le_mul hx hy (le_max_left 0 _) (by omega)
    _ = (b.ymax - b.ymin) * (b.xmax - b.xmin) := mul_comm _ _

lemma calculateIoU_of_inter_zero (a b : Box2d) (h : interAreaI a b = 0) :
    calculateIoU a b = 0 := by
  rw [calculateIoU_eq]
  split
  · rfl
  · rw [h]; simp

/-- If either box has a zero or negative extent in some axis, the computed
intersection area is `0`. -/
lemma interAreaI_eq_zero_of_degenerate (a b : Box2d)
    (h : a.ymax ≤ a.ymin ∨ a.xmax ≤ a.xmin ∨ b.ymax ≤ b.ymin ∨ b.xmax ≤ b.xmin) :
    interAreaI a b = 0 := by
  unfold interAreaI
  rcases h with h | h | h | h
  · have : min a.ymax b.ymax - max a.ymin b.ymin ≤ 0 := by
      have h1 := min_le_left a.ymax b.ymax
      have h2 := le_max_left a.ymin b.ymin
      omega
    rw [max_eq_left this, mul_zero]
  · have : min a.xmax b.xmax - max a.xmin b.xmin ≤ 0 := by
      have h1 := min_le_left a.xmax b.xmax
      have h2 := le_max_left a.xmin b.xmin
      omega
    rw [max_eq_left this, zero_mul]
  · have : min a.ymax b.ymax - max a.ymin b.ymin ≤ 0 := by
      have h1 := min_le_right a.ymax b.ymax
      have h2 := le_max_right a.ymin b.ymin
      omega
    rw [max_eq_left this, mul_zero]
  · have : min a.xmax b.xmax - max a.xmin b.xmin ≤ 0 := by
      have h1 := min_le_right a.xmax b.xmax
      have h2 := le_max_right a.xmin b.xmin
      omega
    rw [max_eq_left this, zero_mul]

/-- **C8.** IoU totality and degenerate inputs: `calculateIoU` never divides
by zero (whenever the division branch is taken, the denominator is
nonzero); for every pair of well-formed boxes the result lies in `[0, 1]`;
and whenever either box has a zero or negative extent in some axis the
result is exactly `0`. -/
theorem C8_iou_total_bounds_degenerate :
    (∀ a b : Box2d, calculateIoU a b = 0 ∨ unionDenom a b ≠ 0) ∧
    (∀ a b : Box2d, WellFormed a → WellFormed b →
      0 ≤ calculateIoU a b ∧ calculateIoU a b ≤ 1) ∧
    (∀ a b : Box2d,
      (a.ymax ≤ a.ymin ∨ a.xmax ≤ a.xmin ∨ b.ymax ≤ b.ymin ∨ b.xmax ≤ b.xmin) →
      calculateIoU a b = 0) := by
  refine ⟨?_, ?_, ?_⟩
  · intro a b
    rw [calculateIoU_eq]
    split
    · exact Or.inl rfl
    · exact Or.inr (by assumption)
  · intro a b ha hb
    have hinter := interAreaI_nonneg a b
    have hla := interAreaI_le_left a b ha
    have hlb := interAreaI_le_right a b hb
    rw [calculateIoU_eq]
    split
    · norm_num
    · rename_i hne
      have hdpos : 0 < unionDenom a b := by
        have : 0 ≤ unionDenom a b := by unfold unionDenom; omega
        omega
      constructor
      · apply div_nonneg
        · exact_mod_cast hinter
        · exact_mod_cast le_of_lt hdpos
      · rw [div_le_one (by exact_mod_cast hdpos)]
        have : interAreaI a b ≤ unionDenom a b := by unfold unionDenom; omega
        exact_mod_cast this
  · intro a b h
    exact calculateIoU_of_inter_zero a b (interAreaI_eq_zero_of_degenerate a b h)

/-- Witness for C8 at concrete boxes: an overlapping well-formed pair and a
degenerate pair. -/
theorem C8_witness :
    (0 ≤ calculateIoU ⟨0,0,100,100⟩ ⟨10,0,110,100⟩ ∧
      calculateIoU ⟨0,0,100,100⟩ ⟨10,0,110,100⟩ ≤ 1) ∧
    calculateIoU ⟨50,0,0,100⟩ ⟨0,0,100,100⟩ = 0 := by
  constructor
  · exact C8_iou_total_bounds_degenerate.2.1 ⟨0,0,100,100⟩ ⟨10,0,110,100⟩
      (by constructor <;> norm_num) (by constructor <;> norm_num)
  · exact C8_iou_total_bounds_degenerate.2.2 ⟨50,0,0,100⟩ ⟨0,0,100,100⟩
      (by norm_num)

/-! ### Claim C3: speed derivation -/

/-- **C3.** Speed derivation: on every successful match the track's speed
becomes `floor(|newCentroid.y - oldCentroid.y| * 1000 * 1.5)` and is
written to the matched detection as `estimatedSpeed`; concretely, a
detection at `[400,400,500,500]` matched next frame at `[430,400,530,500]`
yields speed `45`, and matched at `[460,400,560,500]` (vertical centroid
shift `0.06`) yields speed `90 > 80`, setting `isSpeeding = true`. -/
theorem C3_speed_derivation :
    (∀ (track : TrackedObject) (det : Det) (b : Box2d),
      (matchUpdate track det b).1.speed =
          ⌊|(getCentroid b).2 - track.centroid.2| * 1000 * (1.5 : ℚ)⌋ ∧
        (matchUpdate track det b).2.estimatedSpeed =
          some (matchUpdate track det b).1.speed) ∧
    ((update (update initState [exDet ⟨400,400,500,500⟩] 0).1
        [exDet ⟨430,400,530,500⟩] 1).2.map Det.estimatedSpeed = [some 45]) ∧
    ((update (update initState [exDet ⟨400,400,500,500⟩] 0).1
        [exDet ⟨460,400,560,500⟩] 1).2.map Det.estimatedSpeed = [some 90] ∧
      (update (update initState [exDet ⟨400,400,500,500⟩] 0).1
        [exDet ⟨460,400,560,500⟩] 1).2.map Det.isSpeeding = [some true]) := by
  refine ⟨fun track det b => ⟨rfl, rfl⟩, ?_, ?_, ?_⟩ <;>
    norm_num [update, matchPhase, createPhase, matchStep, bestScan, matchUpdate, calculateIoU,
      getCentroid, validIdxs, createStep, flagStep, flagOne, dominantFlow, activeMovingTracks,
      jsSign, initState, isValidDet, iouThreshold, SPEED_LIMIT, maxMissingFrames, ageTrack,
      exDet, max_def, min_def, List.getD, List.range_succ, abs_of_nonneg, abs_of_nonpos]

/-! ### Matcher lemmas -/

/-- If the scan keeps a best candidate, every candidate it selected came
from the scanned index list, has a present box, and beat the IoU
threshold. -/
lemma bestScan_some (tbox : Box2d) (dets : List Det) :
    ∀ (l : List ℕ) (best : Option ℕ × ℚ) (i : ℕ),
      (bestScan tbox dets l best).1 = some i →
      best.1 = some i ∨
        (i ∈ l ∧ ∃ b, (dets[i]?).bind Det.box_2d = some b ∧
          iouThreshold < calculateIoU tbox b) := by
  intro l
  induction l with
  | nil => intro best i h; exact Or.inl h
  | cons j rest ih =>
    intro best i h
    rw [bestScan] at h
    cases hb : (dets[j]?).bind Det.box_2d with
    | none =>
        rw [hb] at h
        rcases ih best i h with h' | ⟨hmem, hrest⟩
        · exact Or.inl h'
        · exact Or.inr ⟨List.mem_cons_of_mem _ hmem, hrest⟩
    | some b =>
        rw [hb] at h
        simp only at h
        split at h
        · rcases ih _ i h with h' | ⟨hmem, hrest⟩
          · simp only at h'
            cases h'
            rename_i hcond
            exact Or.inr ⟨List.mem_cons_self _ _, b, hb, hcond.1⟩
          · exact Or.inr ⟨List.mem_cons_of_mem _ hmem, hrest⟩
        · rcases ih best i h with h' | ⟨hmem, hrest⟩
          · exact Or.inl h'
          · exact Or.inr ⟨List.mem_cons_of_mem _ hmem, hrest⟩

/-- If no scanned candidate strictly beats the current best IoU, the scan
returns the current best unchanged. -/
lemma bestScan_stay (tbox : Box2d) (dets : List Det) :
    ∀ (l : List ℕ) (best : Option ℕ × ℚ),
      (∀ j ∈ l, ∀ b, (dets[j]?).bind Det.box_2d = some b →
        calculateIoU tbox b ≤ best.2) →
      bestScan tbox dets l best = best := by
  intro l
  induction l with
  | nil => intro best _; rfl
  | cons j rest ih =>
    intro best h
    rw [bestScan]
    cases hb : (dets[j]?).bind Det.box_2d with
    | none => exact ih best fun k hk b hbb => h k (List.mem_cons_of_mem _ hk) b hbb
    | some b =>
        simp only
        rw [if_neg]
        · exact ih best fun k hk b' hbb => h k (List.mem_cons_of_mem _ hk) b' hbb
        · rintro ⟨-, hlt⟩
          exact absurd (h j (List.mem_cons_self _ _) b hb) (not_le.mpr hlt)

/-- If index `i` is scanned, its IoU beats the threshold and the current
best, and every other scanned candidate has strictly smaller IoU, the scan
returns `i` with its IoU. -/
lemma bestScan_argmax (tbox : Box2d) (dets : List Det) (i : ℕ) (b : Box2d)
    (hb : (dets[i]?).bind Det.box_2d = some b)
    (hthr : iouThreshold < calculateIoU tbox b) :
    ∀ (l : List ℕ) (best : Option ℕ × ℚ), i ∈ l →
      best.2 < calculateIoU tbox b →
      (∀ j ∈ l, j ≠ i → ∀ b', (dets[j]?).bind Det.box_2d = some b' →
        calculateIoU tbox b' < calculateIoU tbox b) →
      bestScan tbox dets l best = (some i, calculateIoU tbox b) := by
  intro l
  induction l with
  | nil => intro best h; exact absurd h (List.not_mem_nil i)
  | cons j rest ih =>
    intro best hmem hbest hothers
    by_cases hji : j = i
    · subst hji
      rw [bestScan, hb]
      simp only
      rw [if_pos ⟨hthr, hbest⟩]
      apply bestScan_stay
      intro k hk b' hbb
      by_cases hki : k = j
      · subst hki
        rw [hbb] at hb
        cases hb
        exact le_refl _
      · exact le_of_lt (hothers k (List.mem_cons_of_mem _ hk) hki b' hbb)
    · have hmem' : i ∈ rest := by
        rcases List.mem_cons.mp hmem with h | h
        · exact absurd h.symm hji
        · exact h
      have hothers' : ∀ k ∈ rest, k ≠ i → ∀ b', (dets[k]?).bind Det.box_2d = some b' →
          calculateIoU tbox b' < calculateIoU tbox b :=
        fun k hk => hothers k (List.mem_cons_of_mem _ hk)
      rw [bestScan]
      cases hbj : (dets[j]?).bind Det.box_2d with
      | none => exact ih best hmem' hbest hothers'
      | some bj =>
          have hlt : calculateIoU tbox bj < calculateIoU tbox b :=
            hothers j (List.mem_cons_self _ _) hji bj hbj
          simp only
          split
          · exact ih _ hmem' hlt hothers'
          · exact ih best hmem' hbest hothers'

/-- Case analysis for one iteration of the matching loop: either the track
matches nothing and is appended aged-as-is, or it matches detection index
`i` (taken from the unassigned pool, with a present box) and both the
track and the detection are updated. -/
lemma matchStep_cases (acc : List Det × List ℕ × List TrackedObject) (track : TrackedObject) :
    matchStep acc track = (acc.1, acc.2.1, acc.2.2 ++ [track]) ∨
    ∃ i d b, (bestScan track.box acc.1 acc.2.1 (none, 0)).1 = some i ∧
      i ∈ acc.2.1 ∧ acc.1[i]? = some d ∧ d.box_2d = some b ∧
      matchStep acc track =
        (acc.1.set i (matchUpdate track d b).2,
         acc.2.1.filter (fun j => decide (j ≠ i)),
         acc.2.2 ++ [(matchUpdate track d b).1]) := by
  unfold matchStep
  split
  · exact Or.inl rfl
  · rename_i i hscan
    have hmem : i ∈ acc.2.1 := by
      rcases bestScan_some track.box acc.1 acc.2.1 (none, 0) i hscan with h | ⟨h, -⟩
      · exact absurd h (by simp)
      · exact h
    split
    · exact Or.inl rfl
    · rename_i d hget
      split
      · exact Or.inl rfl
      · rename_i b hbox
        exact Or.inr ⟨i, d, b, hscan, hmem, hget, hbox, rfl⟩

/-- Case analysis for one iteration of the track-creation loop. -/
lemma createStep_cases (timestamp : ℤ) (acc : List Det × List TrackedObject × ℕ) (i : ℕ) :
    createStep timestamp acc i = acc ∨
    ∃ d b, acc.1[i]? = some d ∧ d.box_2d = some b ∧
      createStep timestamp acc i =
        (acc.1.set i (createAnnotate acc.2.2 d),
         acc.2.1 ++ [newTrackFor timestamp acc.2.2 d b],
         acc.2.2 + 1) := by
  unfold createStep
  split
  · exact Or.inl rfl
  · rename_i d hget
    split
    · exact Or.inl rfl
    · rename_i b hbox
      exact Or.inr ⟨d, b, hget, hbox, rfl⟩

/-- Case analysis for one iteration of the flag loop. -/
lemma flagStep_cases (tracks : List TrackedObject) (dominantDy : ℚ) (dets : List Det) (i : ℕ) :
    flagStep tracks dominantDy dets i = dets ∨
    ∃ d, dets[i]? = some d ∧
      flagStep tracks dominantDy dets i = dets.set i (flagOne tracks dominantDy d) := by
  unfold flagStep
  split
  · exact Or.inl rfl
  · rename_i d hget
    exact Or.inr ⟨d, hget, rfl⟩

/-! ### Fold-level machinery -/

/-- The matching fold never touches a detection index outside the
unassigned pool, and never adds indices to the pool. -/
lemma foldl_matchStep_untouched :
    ∀ (l : List TrackedObject) (acc : List Det × List ℕ × List TrackedObject) (j : ℕ),
      j ∉ acc.2.1 →
      ((l.foldl matchStep acc).1)[j]? = acc.1[j]? ∧ j ∉ (l.foldl matchStep acc).2.1 := by
  intro l
  induction l with
  | nil => intro acc j h; exact ⟨rfl, h⟩
  | cons t rest ih =>
    intro acc j h
    rw [List.foldl_cons]
    rcases matchStep_cases acc t with heq | ⟨i, d, b, -, hi, hget, -, heq⟩
    · rw [heq]; exact ih _ j h
    · rw [heq]
      have hij : i ≠ j := fun hc => h (hc ▸ hi)
      have h1 : (acc.1.set i (matchUpdate t d b).2)[j]? = acc.1[j]? :=
        List.getElem?_set_ne hij
      have h2 : j ∉ acc.2.1.filter (fun k => decide (k ≠ i)) := fun hc =>
        h (List.mem_of_mem_filter hc)
      obtain ⟨ha, hb⟩ := ih (acc.1.set i (matchUpdate t d b).2,
        acc.2.1.filter (fun k => decide (k ≠ i)),
        acc.2.2 ++ [(matchUpdate t d b).1]) j h2
      exact ⟨by rw [ha]; exact h1, hb⟩

/-- The creation fold never touches a detection index it does not iterate
over. -/
lemma foldl_createStep_untouched (timestamp : ℤ) :
    ∀ (l : List ℕ) (acc : List Det × List TrackedObject × ℕ) (j : ℕ),
      j ∉ l → ((l.foldl (createStep timestamp) acc).1)[j]? = acc.1[j]? := by
  intro l
  induction l with
  | nil => intro acc j _; rfl
  | cons i rest ih =>
    intro acc j h
    have hij : i ≠ j := fun hc => h (hc ▸ List.mem_cons_self _ _)
    have hrest : j ∉ rest := fun hc => h (List.mem_cons_of_mem _ hc)
    rw [List.foldl_cons]
    rcases createStep_cases timestamp acc i with heq | ⟨d, b, -, -, heq⟩
    · rw [heq]; exact ih _ j hrest
    · rw [heq, ih _ j hrest]
      exact List.getElem?_set_ne hij

/-- The flag fold never touches a detection index it does not iterate
over. -/
lemma foldl_flagStep_untouched (tracks : List TrackedObject) (dominantDy : ℚ) :
    ∀ (l : List ℕ) (dets : List Det) (j : ℕ),
      j ∉ l → ((l.foldl (flagStep tracks dominantDy) dets))[j]? = dets[j]? := by
  intro l
  induction l with
  | nil => intro dets j _; rfl
  | cons i rest ih =>
    intro dets j h
    have hij : i ≠ j := fun hc => h (hc ▸ List.mem_cons_self _ _)
    have hrest : j ∉ rest := fun hc => h (List.mem_cons_of_mem _ hc)
    rw [List.foldl_cons]
    rcases flagStep_cases tracks dominantDy dets i with heq | ⟨d, -, heq⟩
    · rw [heq]; exact ih _ j hrest
    · rw [heq, ih _ j hrest]
      exact List.getElem?_set_ne hij

/-- Entry evolution through the matching fold: any relation `P` that is
reflexive, transitive, and closed under matched-detection updates by the
folded tracks relates each input entry to the corresponding output
entry. -/
lemma foldl_matchStep_entry (P : Det → Det → Prop)
    (htrans : ∀ a b c, P a b → P b c → P a c) (hrefl : ∀ d0, P d0 d0) :
    ∀ (l : List TrackedObject) (acc : List Det × List ℕ × List TrackedObject) (j : ℕ) (d : Det),
      (∀ t ∈ l, ∀ d0 b, P d0 (matchUpdate t d0 b).2) →
      acc.1[j]? = some d →
      ∃ d', ((l.foldl matchStep acc).1)[j]? = some d' ∧ P d d' := by
  intro l
  induction l with
  | nil => intro acc j d _ h; exact ⟨d, h, hrefl d⟩
  | cons t rest ih =>
    intro acc j d hstep h
    rw [List.foldl_cons]
    rcases matchStep_cases acc t with heq | ⟨i, d0, b, -, -, hget, -, heq⟩
    · rw [heq]
      exact ih _ j d (fun t' ht' => hstep t' (List.mem_cons_of_mem _ ht')) h
    · rw [heq]
      by_cases hji : j = i
      · subst hji
        rw [hget] at h
        have hd : d = d0 := (Option.some.inj h).symm
        subst hd
        have hlt : j < acc.1.length := (List.getElem?_eq_some.mp hget).1
        have hset : (acc.1.set j (matchUpdate t d b).2)[j]? = some ((matchUpdate t d b).2) :=
          List.getElem?_set_self hlt
        obtain ⟨d', hd', hP⟩ := ih (acc.1.set j (matchUpdate t d b).2,
            acc.2.1.filter (fun k => decide (k ≠ j)), acc.2.2 ++ [(matchUpdate t d b).1])
          j ((matchUpdate t d b).2)
          (fun t' ht' => hstep t' (List.mem_cons_of_mem _ ht')) hset
        exact ⟨d', hd', htrans _ _ _ (hstep t (List.mem_cons_self _ _) d b) hP⟩
      · apply ih _ j d (fun t' ht' => hstep t' (List.mem_cons_of_mem _ ht'))
        show (acc.1.set i (matchUpdate t d0 b).2)[j]? = some d
        rw [List.getElem?_set_ne (fun hc => hji hc.symm)]
        exact h

/-- Entry evolution through the creation fold. -/
lemma foldl_createStep_entry (timestamp : ℤ) (P : Det → Det → Prop)
    (htrans : ∀ a b c, P a b → P b c → P a c) (hrefl : ∀ d0, P d0 d0)
    (hstep : ∀ (d0 : Det) (nid : ℕ), P d0 (createAnnotate nid d0)) :
    ∀ (l : List ℕ) (acc : List Det × List TrackedObject × ℕ) (j : ℕ) (d : Det),
      acc.1[j]? = some d →
      ∃ d', ((l.foldl (createStep timestamp) acc).1)[j]? = some d' ∧ P d d' := by
  intro l
  induction l with
  | nil => intro acc j d h; exact ⟨d, h, hrefl d⟩
  | cons i rest ih =>
    intro acc j d h
    rw [List.foldl_cons]
    rcases createStep_cases timestamp acc i with heq | ⟨d0, b, hget, -, heq⟩
    · rw [heq]; exact ih _ j d h
    · rw [heq]
      by_cases hji : j = i
      · subst hji
        rw [hget] at h
        have hd : d = d0 := (Option.some.inj h).symm
        subst hd
        have hlt : j < acc.1.length := (List.getElem?_eq_some.mp hget).1
        obtain ⟨d', hd', hP⟩ := ih
          (acc.1.set j (createAnnotate acc.2.2 d),
            acc.2.1 ++ [newTrackFor timestamp acc.2.2 d b], acc.2.2 + 1) j
          (createAnnotate acc.2.2 d)
          (List.getElem?_set_self hlt)
        exact ⟨d', hd', htrans _ _ _ (hstep d acc.2.2) hP⟩
      · apply ih _ j d
        show (acc.1.set i _)[j]? = some d
        rw [List.getElem?_set_ne (fun hc => hji hc.symm)]
        exact h

/-- Entry evolution through the flag fold. -/
lemma foldl_flagStep_entry (tracks : List TrackedObject) (dominantDy : ℚ)
    (P : Det → Det → Prop)
    (htrans : ∀ a b c, P a b → P b c → P a c) (hrefl : ∀ d0, P d0 d0)
    (hstep : ∀ d0 : Det, P d0 (flagOne tracks dominantDy d0)) :
    ∀ (l : List ℕ) (dets : List Det) (j : ℕ) (d : Det),
      dets[j]? = some d →
      ∃ d', ((l.foldl (flagStep tracks dominantDy) dets))[j]? = some d' ∧ P d d' := by
  intro l
  induction l with
  | nil => intro dets j d h; exact ⟨d, h, hrefl d⟩
  | cons i rest ih =>
    intro dets j d h
    rw [List.foldl_cons]
    rcases flagStep_cases tracks dominantDy dets i with heq | ⟨d0, hget, heq⟩
    · rw [heq]; exact ih _ j d h
    · rw [heq]
      by_cases hji : j = i
      · subst hji
        rw [hget] at h
        have hd : d = d0 := (Option.some.inj h).symm
        subst hd
        have hlt : j < dets.length := (List.getElem?_eq_some.mp hget).1
        obtain ⟨d', hd', hP⟩ := ih _ j (flagOne tracks dominantDy d)
          (List.getElem?_set_self hlt)
        exact ⟨d', hd', htrans _ _ _ (hstep d) hP⟩
      · apply ih _ j d
        show (dets.set i (flagOne tracks dominantDy d0))[j]? = some d
        rw [List.getElem?_set_ne (fun hc => hji hc.symm)]
        exact h

/-- All three folds preserve the length of the detection list. -/
lemma foldl_matchStep_length :
    ∀ (l : List TrackedObject) (acc : List Det × List ℕ × List TrackedObject),
      ((l.foldl matchStep acc).1).length = acc.1.length := by
  intro l
  induction l with
  | nil => intro acc; rfl
  | cons t rest ih =>
    intro acc
    rw [List.foldl_cons]
    rcases matchStep_cases acc t with heq | ⟨i, d, b, -, -, -, -, heq⟩
    · rw [heq, ih]
    · rw [heq, ih]; simp

lemma foldl_createStep_length (timestamp : ℤ) :
    ∀ (l : List ℕ) (acc : List Det × List TrackedObject × ℕ),
      ((l.foldl (createStep timestamp) acc).1).length = acc.1.length := by
  intro l
  induction l with
  | nil => intro acc; rfl
  | cons i rest ih =>
    intro acc
    rw [List.foldl_cons]
    rcases createStep_cases timestamp acc i with heq | ⟨d, b, -, -, heq⟩
    · rw [heq, ih]
    · rw [heq, ih]; simp

lemma foldl_flagStep_length (tracks : List TrackedObject) (dominantDy : ℚ) :
    ∀ (l : List ℕ) (dets : List Det),
      ((l.foldl (flagStep tracks dominantDy) dets)).length = dets.length := by
  intro l
  induction l with
  | nil => intro dets; rfl
  | cons i rest ih =>
    intro dets
    rw [List.foldl_cons]
    rcases flagStep_cases tracks dominantDy dets i with heq | ⟨d, -, heq⟩
    · rw [heq, ih]
    · rw [heq, ih]; simp

/-! ### Update-level composition lemmas -/

lemma matchPhase_def (s : TrackerState) (dets : List Det) :
    matchPhase s dets =
      (s.tracks.map ageTrack).foldl matchStep (dets, validIdxs dets, []) := rfl

lemma createPhase_def (s : TrackerState) (dets : List Det) (ts : ℤ) :
    createPhase s dets ts =
      (matchPhase s dets).2.1.foldl (createStep ts)
        ((matchPhase s dets).1, (matchPhase s dets).2.2, s.nextId) := rfl

lemma update_dets (s : TrackerState) (dets : List Det) (ts : ℤ) :
    (update s dets ts).2 =
      (validIdxs dets).foldl
        (flagStep (createPhase s dets ts).2.1 (dominantFlow (createPhase s dets ts).2.1))
        (createPhase s dets ts).1 := rfl

lemma update_tracks (s : TrackerState) (dets : List Det) (ts : ℤ) :
    (update s dets ts).1.tracks =
      (createPhase s dets ts).2.1.filter
        (fun t => decide (t.missingFrames ≤ maxMissingFrames)) := rfl

lemma update_nextId (s : TrackerState) (dets : List Det) (ts : ℤ) :
    (update s dets ts).1.nextId = (createPhase s dets ts).2.2 := rfl

/-- Membership in `validIdxs`: exactly the in-range indices whose detection
passes the `validDetections` filter. -/
lemma mem_validIdxs (dets : List Det) (i : ℕ) :
    i ∈ validIdxs dets ↔ ∃ d, dets[i]? = some d ∧ isValidDet d = true := by
  unfold validIdxs
  rw [List.mem_filter, List.mem_range]
  constructor
  · rintro ⟨hlt, hp⟩
    cases hd : dets[i]? with
    | none => rw [hd] at hp; simp at hp
    | some d =>
        rw [hd] at hp
        simp only [Option.map_some', Option.getD_some] at hp
        exact ⟨d, rfl, hp⟩
  · rintro ⟨d, hd, hv⟩
    refine ⟨(List.getElem?_eq_some.mp hd).1, ?_⟩
    rw [hd]
    simpa using hv

/-- `validIdxs` has no duplicate indices. -/
lemma validIdxs_nodup (dets : List Det) : (validIdxs dets).Nodup :=
  List.Nodup.filter _ (List.nodup_range _)

/-- The matched-detection write-back changes only the tracking annotations
`trackId`, `estimatedSpeed` and `laneEvent`. -/
lemma matchUpdate_det_fields (t : TrackedObject) (d0 : Det) (b : Box2d) :
    (matchUpdate t d0 b).2.object = d0.object ∧
    (matchUpdate t d0 b).2.count = d0.count ∧
    (matchUpdate t d0 b).2.confidence = d0.confidence ∧
    (matchUpdate t d0 b).2.type = d0.type ∧
    (matchUpdate t d0 b).2.box_2d = d0.box_2d ∧
    (matchUpdate t d0 b).2.trackId = some t.id ∧
    (matchUpdate t d0 b).2.estimatedSpeed = some (matchUpdate t d0 b).1.speed ∧
    (matchUpdate t d0 b).2.laneEvent = some (matchUpdate t d0 b).1.laneStatus ∧
    (matchUpdate t d0 b).2.isSpeeding = d0.isSpeeding ∧
    (matchUpdate t d0 b).2.isWrongWay = d0.isWrongWay :=
  ⟨rfl, rfl, rfl, rfl, rfl, rfl, rfl, rfl, rfl, rfl⟩

/-- `createAnnotate` changes only the tracking annotations. -/
lemma createAnnotate_fields (nid : ℕ) (d0 : Det) :
    (createAnnotate nid d0).object = d0.object ∧
    (createAnnotate nid d0).count = d0.count ∧
    (createAnnotate nid d0).confidence = d0.confidence ∧
    (createAnnotate nid d0).type = d0.type ∧
    (createAnnotate nid d0).box_2d = d0.box_2d ∧
    (createAnnotate nid d0).trackId = some nid ∧
    (createAnnotate nid d0).estimatedSpeed = some 0 ∧
    (createAnnotate nid d0).laneEvent = some LaneStatus.stable ∧
    (createAnnotate nid d0).isSpeeding = d0.isSpeeding ∧
    (createAnnotate nid d0).isWrongWay = d0.isWrongWay :=
  ⟨rfl, rfl, rfl, rfl, rfl, rfl, rfl, rfl, rfl, rfl⟩

/-- The flag loop body only ever sets `isSpeeding` / `isWrongWay` to
`true`, leaving every other field unchanged. -/
lemma flagOne_fields (tr : List TrackedObject) (dom : ℚ) (d : Det) :
    (flagOne tr dom d).object = d.object ∧
    (flagOne tr dom d).count = d.count ∧
    (flagOne tr dom d).confidence = d.confidence ∧
    (flagOne tr dom d).type = d.type ∧
    (flagOne tr dom d).box_2d = d.box_2d ∧
    (flagOne tr dom d).trackId = d.trackId ∧
    (flagOne tr dom d).estimatedSpeed = d.estimatedSpeed ∧
    (flagOne tr dom d).laneEvent = d.laneEvent ∧
    ((flagOne tr dom d).isSpeeding = d.isSpeeding ∨
      (flagOne tr dom d).isSpeeding = some true) ∧
    ((flagOne tr dom d).isWrongWay = d.isWrongWay ∨
      (flagOne tr dom d).isWrongWay = some true) := by
  unfold flagOne
  split
  · simp
  · split
    · simp
    · dsimp only
      split <;> split <;> simp

/-- Entry evolution through a whole `update` call, for any relation closed
under the three per-detection transformations. -/
lemma update_entry (P : Det → Det → Prop)
    (htrans : ∀ a b c, P a b → P b c → P a c) (hrefl : ∀ d0, P d0 d0)
    (s : TrackerState) (dets : List Det) (ts : ℤ)
    (hmatch : ∀ t ∈ s.tracks.map ageTrack, ∀ (d0 : Det) (b : Box2d),
      P d0 (matchUpdate t d0 b).2)
    (hcreate : ∀ (d0 : Det) (nid : ℕ), P d0 (createAnnotate nid d0))
    (hflag : ∀ (tr : List TrackedObject) (dom : ℚ) (d0 : Det), P d0 (flagOne tr dom d0)) :
    ∀ (j : ℕ) (d : Det), dets[j]? = some d →
      ∃ d', ((update s dets ts).2)[j]? = some d' ∧ P d d' := by
  intro j d h
  obtain ⟨d1, h1, p1⟩ := foldl_matchStep_entry P htrans hrefl (s.tracks.map ageTrack)
    (dets, validIdxs dets, []) j d hmatch h
  obtain ⟨d2, h2, p2⟩ := foldl_createStep_entry ts P htrans hrefl hcreate
    (matchPhase s dets).2.1
    ((matchPhase s dets).1, (matchPhase s dets).2.2, s.nextId) j d1 h1
  obtain ⟨d3, h3, p3⟩ := foldl_flagStep_entry (createPhase s dets ts).2.1
    (dominantFlow (createPhase s dets ts).2.1) P htrans hrefl
    (hflag _ _) (validIdxs dets) (createPhase s dets ts).1 j d2 h2
  exact ⟨d3, h3, htrans _ _ _ p1 (htrans _ _ _ p2 p3)⟩

/-- A detection index outside `validIdxs` is returned untouched by
`update`. -/
lemma update_untouched (s : TrackerState) (dets : List Det) (ts : ℤ) (j : ℕ)
    (hj : j ∉ validIdxs dets) :
    ((update s dets ts).2)[j]? = dets[j]? := by
  obtain ⟨h1, h1'⟩ := foldl_matchStep_untouched (s.tracks.map ageTrack)
    (dets, validIdxs dets, []) j hj
  have h2 := foldl_createStep_untouched ts (matchPhase s dets).2.1
    ((matchPhase s dets).1, (matchPhase s dets).2.2, s.nextId) j h1'
  have h3 := foldl_flagStep_untouched (createPhase s dets ts).2.1
    (dominantFlow (createPhase s dets ts).2.1) (validIdxs dets)
    (createPhase s dets ts).1 j hj
  rw [update_dets, h3]
  show (createPhase s dets ts).1[j]? = dets[j]?
  rw [createPhase_def, h2]
  exact h1

/-- `update` preserves the length of the detection list. -/
lemma update_length (s : TrackerState) (dets : List Det) (ts : ℤ) :
    (update s dets ts).2.length = dets.length := by
  rw [update_dets, foldl_flagStep_length]
  show ((createPhase s dets ts).1).length = dets.length
  rw [createPhase_def, foldl_createStep_length]
  show ((matchPhase s dets).1).length = dets.length
  rw [matchPhase_def, foldl_matchStep_length]

/-! ### Claim C6: pass-through frame condition -/

/-- **C6.** `update` returns the same detection sequence it was given:
same cardinality, and position-by-position the same detection up to the
tracking annotations (`object`, `count`, `confidence`, `type`, `box_2d`
never change); a detection that is not a vehicle or has no box is returned
with all of its fields unchanged. -/
theorem C6_pass_through :
    ∀ (s : TrackerState) (dets : List Det) (ts : ℤ),
      (update s dets ts).2.length = dets.length ∧
      (∀ (i : ℕ) (d : Det), dets[i]? = some d →
        ∃ d', ((update s dets ts).2)[i]? = some d' ∧ d'.object = d.object ∧
          d'.count = d.count ∧ d'.confidence = d.confidence ∧ d'.type = d.type ∧
          d'.box_2d = d.box_2d) ∧
      (∀ (i : ℕ) (d : Det), dets[i]? = some d → isValidDet d = false →
        ((update s dets ts).2)[i]? = some d) := by
  intro s dets ts
  refine ⟨update_length s dets ts, ?_, ?_⟩
  · intro i d h
    refine update_entry
      (fun a b => b.object = a.object ∧ b.count = a.count ∧
        b.confidence = a.confidence ∧ b.type = a.type ∧ b.box_2d = a.box_2d)
      (fun a b c hab hbc => ⟨hbc.1.trans hab.1, hbc.2.1.trans hab.2.1,
        hbc.2.2.1.trans hab.2.2.1, hbc.2.2.2.1.trans hab.2.2.2.1,
        hbc.2.2.2.2.trans hab.2.2.2.2⟩)
      (fun d0 => ⟨rfl, rfl, rfl, rfl, rfl⟩) s dets ts
      (fun t _ d0 b =>
        let f := matchUpdate_det_fields t d0 b
        ⟨f.1, f.2.1, f.2.2.1, f.2.2.2.1, f.2.2.2.2.1⟩)
      (fun d0 nid =>
        let f := createAnnotate_fields nid d0
        ⟨f.1, f.2.1, f.2.2.1, f.2.2.2.1, f.2.2.2.2.1⟩)
      (fun tr dom d0 =>
        let f := flagOne_fields tr dom d0
        ⟨f.1, f.2.1, f.2.2.1, f.2.2.2.1, f.2.2.2.2.1⟩)
      i d h
  · intro i d h hinvalid
    have hj : i ∉ validIdxs dets := by
      intro hc
      obtain ⟨d0, hd0, hv⟩ := (mem_validIdxs dets i).mp hc
      rw [h] at hd0
      rw [← Option.some.inj hd0] at hv
      rw [hinvalid] at hv
      exact Bool.false_ne_true hv
    rw [update_untouched s dets ts i hj]
    exact h

/-- Witness for C6: a pedestrian detection passes through a concrete
`update` call completely unchanged. -/
theorem C6_witness :
    ((update initState [pedDet] 0).2)[0]? = some pedDet :=
  (C6_pass_through initState [pedDet] 0).2.2 0 pedDet rfl rfl

/-! ### Track-side lemmas -/

lemma matchUpdate_missing (t : TrackedObject) (d : Det) (b : Box2d) :
    (matchUpdate t d b).1.missingFrames = 0 := rfl

lemma matchUpdate_id (t : TrackedObject) (d : Det) (b : Box2d) :
    (matchUpdate t d b).1.id = t.id := rfl

/-- Every track in the matching fold's output is either a processed input
track (unmatched, kept as is) or a matched update of one. -/
lemma foldl_matchStep_tracks_mem :
    ∀ (l : List TrackedObject) (acc : List Det × List ℕ × List TrackedObject)
      (t' : TrackedObject),
      t' ∈ (l.foldl matchStep acc).2.2 →
      t' ∈ acc.2.2 ∨ ∃ t ∈ l, t' = t ∨ ∃ d b, t' = (matchUpdate t d b).1 := by
  intro l
  induction l with
  | nil => intro acc t' h; exact Or.inl h
  | cons t rest ih =>
    intro acc t' h
    rw [List.foldl_cons] at h
    rcases ih (matchStep acc t) t' h with h0 | ⟨t1, ht1, hcase⟩
    · rcases matchStep_cases acc t with heq | ⟨i, d, b, -, -, -, -, heq⟩
      · rw [heq] at h0
        rcases List.mem_append.mp h0 with h2 | h2
        · exact Or.inl h2
        · exact Or.inr ⟨t, List.mem_cons_self _ _, Or.inl (List.mem_singleton.mp h2)⟩
      · rw [heq] at h0
        rcases List.mem_append.mp h0 with h2 | h2
        · exact Or.inl h2
        · exact Or.inr ⟨t, List.mem_cons_self _ _,
            Or.inr ⟨d, b, List.mem_singleton.mp h2⟩⟩
    · exact Or.inr ⟨t1, List.mem_cons_of_mem _ ht1, hcase⟩

/-- Every track in the creation fold's output is either already present or
a freshly created track. -/
lemma foldl_createStep_tracks_mem (timestamp : ℤ) :
    ∀ (l : List ℕ) (acc : List Det × List TrackedObject × ℕ) (t' : TrackedObject),
      t' ∈ (l.foldl (createStep timestamp) acc).2.1 →
      t' ∈ acc.2.1 ∨ ∃ nid d b, t' = newTrackFor timestamp nid d b := by
  intro l
  induction l with
  | nil => intro acc t' h; exact Or.inl h
  | cons i rest ih =>
    intro acc t' h
    rw [List.foldl_cons] at h
    rcases ih (createStep timestamp acc i) t' h with h0 | hnew
    · rcases createStep_cases timestamp acc i with heq | ⟨d, b, -, -, heq⟩
      · rw [heq] at h0
        exact Or.inl h0
      · rw [heq] at h0
        rcases List.mem_append.mp h0 with h2 | h2
        · exact Or.inl h2
        · exact Or.inr ⟨acc.2.2, d, b, List.mem_singleton.mp h2⟩
    · exact Or.inr hnew

/-- After an `update`, every surviving track respects the staleness bound
`missingFrames ≤ maxMissingFrames`. -/
lemma update_missing_le (s : TrackerState) (dets : List Det) (ts : ℤ) :
    ∀ t ∈ (update s dets ts).1.tracks, t.missingFrames ≤ maxMissingFrames := by
  intro t ht
  rw [update_tracks] at ht
  exact of_decide_eq_true (List.mem_filter.mp ht).2

/-- After an `update`, every surviving track either matched this cycle or
was just created (`missingFrames = 0`), or is an aged copy of a track of
the previous state with the same id and `missingFrames` one larger. -/
lemma update_track_cases (s : TrackerState) (dets : List Det) (ts : ℤ) :
    ∀ t' ∈ (update s dets ts).1.tracks,
      t'.missingFrames = 0 ∨
      ∃ t ∈ s.tracks, t.id = t'.id ∧ t'.missingFrames = t.missingFrames + 1 := by
  intro t' ht
  rw [update_tracks] at ht
  have ht2 : t' ∈ (createPhase s dets ts).2.1 := List.mem_of_mem_filter ht
  rw [createPhase_def] at ht2
  rcases foldl_createStep_tracks_mem ts _ _ t' ht2 with h | ⟨nid, d, b, rfl⟩
  · rw [matchPhase_def] at h
    rcases foldl_matchStep_tracks_mem _ _ t' h with h0 | ⟨t, htl, hcase⟩
    · exact absurd h0 (List.not_mem_nil t')
    · obtain ⟨t0, ht0, rfl⟩ := List.mem_map.mp htl
      rcases hcase with rfl | ⟨d, b, rfl⟩
      · exact Or.inr ⟨t0, ht0, rfl, rfl⟩
      · exact Or.inl rfl
  · exact Or.inl rfl

/-! ### Claim C2: eviction -/

/-- With an empty unassigned pool, the matching loop matches nothing. -/
lemma foldl_matchStep_empty_unassigned :
    ∀ (l : List TrackedObject) (acc : List Det × List ℕ × List TrackedObject),
      acc.2.1 = [] → l.foldl matchStep acc = (acc.1, acc.2.1, acc.2.2 ++ l) := by
  intro l
  induction l with
  | nil => intro acc h; simp
  | cons t rest ih =>
    intro acc h
    rw [List.foldl_cons]
    rcases matchStep_cases acc t with heq | ⟨i, d, b, -, hmem, -, -, -⟩
    · rw [heq, ih (acc.1, acc.2.1, acc.2.2 ++ [t]) h]
      simp
    · rw [h] at hmem
      exact absurd hmem (List.not_mem_nil i)

/-- An `update` with no detections just ages every track and evicts the
stale ones. -/
lemma update_nil (s : TrackerState) (ts : ℤ) :
    update s [] ts =
      ({ tracks := (s.tracks.map ageTrack).filter
            (fun t => decide (t.missingFrames ≤ maxMissingFrames))
         nextId := s.nextId }, []) := by
  have hm : matchPhase s [] = ([], [], s.tracks.map ageTrack) := by
    rw [matchPhase_def,
      foldl_matchStep_empty_unassigned (s.tracks.map ageTrack)
        (([] : List Det), validIdxs [], ([] : List TrackedObject)) rfl]
    rfl
  have hc : createPhase s [] ts = ([], s.tracks.map ageTrack, s.nextId) := by
    rw [createPhase_def, hm]
    rfl
  rw [show update s [] ts =
      ({ tracks := (createPhase s [] ts).2.1.filter
            (fun t => decide (t.missingFrames ≤ maxMissingFrames))
         nextId := (createPhase s [] ts).2.2 }, (createPhase s [] ts).1) from rfl, hc]

/-- One step of the iterated tracker state along `take`. -/
lemma foldl_take_succ (inputs : List (List Det × ℤ)) (s : TrackerState) (n : ℕ)
    (hlt : n < inputs.length) :
    (inputs.take (n + 1)).foldl stepState s =
      stepState ((inputs.take n).foldl stepState s) (inputs.get ⟨n, hlt⟩) := by
  have hget : inputs[n]? = some (inputs.get ⟨n, hlt⟩) := by
    rw [List.getElem?_eq_getElem hlt, List.get_eq_getElem]
  rw [List.take_succ, hget, List.foldl_append]
  rfl

/-- **C2.** Eviction: at the end of every `update` call no track with
`missingFrames > 50` remains; and a track that matches no detection for 51
consecutive `update` calls (formally: after each of the calls, any track
carrying its id has `missingFrames ≠ 0`, i.e. it was never matched or
recreated) is absent from the store after the 51st call. -/
theorem C2_eviction :
    (∀ (s : TrackerState) (dets : List Det) (ts : ℤ),
      ∀ t ∈ (update s dets ts).1.tracks, t.missingFrames ≤ maxMissingFrames) ∧
    (∀ (s : TrackerState) (inputs : List (List Det × ℤ)) (ι : ℕ),
      inputs.length = 51 →
      (∀ n, 1 ≤ n → n ≤ 51 →
        ∀ t ∈ ((inputs.take n).foldl stepState s).tracks, t.id = ι →
          t.missingFrames ≠ 0) →
      ∀ t ∈ (inputs.foldl stepState s).tracks, t.id ≠ ι) := by
  constructor
  · exact fun s dets ts => update_missing_le s dets ts
  · intro s inputs ι hlen hcond
    have key : ∀ n, n ≤ 51 → ∀ t ∈ ((inputs.take n).foldl stepState s).tracks,
        t.id = ι → n ≤ t.missingFrames := by
      intro n
      induction n with
      | zero => intro _ t _ _; exact Nat.zero_le _
      | succ n ih =>
        intro hn t ht hid
        have hn' : n ≤ 51 := Nat.le_of_succ_le hn
        have hlt : n < inputs.length := by omega
        have hne : t.missingFrames ≠ 0 := hcond (n + 1) (by omega) hn t ht hid
        rw [foldl_take_succ inputs s n hlt] at ht
        rcases update_track_cases _ _ _ t ht with h0 | ⟨t0, ht0m, hid0, hmm⟩
        · exact absurd h0 hne
        · have h1 : n ≤ t0.missingFrames :=
            ih hn' t0 ht0m (hid0.trans hid)
          omega
    intro t ht hid
    have h51 : t ∈ ((inputs.take 51).foldl stepState s).tracks := by
      rw [← hlen, List.take_length]
      exact ht
    have hge := key 51 (le_refl _) t h51 hid
    have hlt50 : (50 : ℕ) < inputs.length := by omega
    rw [foldl_take_succ inputs s 50 hlt50] at h51
    have hle : t.missingFrames ≤ 50 := update_missing_le _ _ _ t h51
    omega

/-- Closed form for iterating `update` with empty detection lists on the
single-track state: the track just ages. -/
lemma emptyInput_iterates :
    ∀ n, n ≤ 50 →
      (List.replicate n (([] : List Det), (0 : ℤ))).foldl stepState oneTrackState =
        { tracks := [{ ceTrack1 with missingFrames := n }], nextId := 2 } := by
  intro n
  induction n with
  | zero => intro _; rfl
  | succ n ih =>
    intro h
    rw [List.replicate_succ', List.foldl_append, ih (by omega)]
    show (update { tracks := [{ ceTrack1 with missingFrames := n }], nextId := 2 } [] 0).1 = _
    rw [update_nil]
    simp [ageTrack, List.filter_cons, maxMissingFrames, h]

/-- After the 51st empty-input call the aged track is evicted. -/
lemma emptyInput_iterates51 :
    (List.replicate 51 (([] : List Det), (0 : ℤ))).foldl stepState oneTrackState =
      { tracks := [], nextId := 2 } := by
  rw [show (51 : ℕ) = 50 + 1 from rfl, List.replicate_succ', List.foldl_append,
    emptyInput_iterates 50 (le_refl _)]
  show (update { tracks := [{ ceTrack1 with missingFrames := 50 }], nextId := 2 } [] 0).1 = _
  rw [update_nil]
  rfl

/-- Witness for C2: one track, 51 empty-input calls; the staleness bound
holds after one call, and id 1 is gone after the 51st call. -/
theorem C2_witness :
    (∀ t ∈ (update oneTrackState [] 0).1.tracks, t.missingFrames ≤ maxMissingFrames) ∧
    (∀ t ∈ ((List.replicate 51 (([] : List Det), (0 : ℤ))).foldl
        stepState oneTrackState).tracks, t.id ≠ 1) := by
  constructor
  · exact C2_eviction.1 oneTrackState [] 0
  · refine C2_eviction.2 oneTrackState (List.replicate 51 (([] : List Det), (0 : ℤ))) 1
      (by simp) ?_
    intro n h1 h2 t ht hid
    have htake : (List.replicate 51 (([] : List Det), (0 : ℤ))).take n =
        List.replicate n (([] : List Det), (0 : ℤ)) := by
      rw [List.take_replicate]
      congr 1
      omega
    rw [htake] at ht
    by_cases hn : n ≤ 50
    · rw [emptyInput_iterates n hn] at ht
      have heq : t = { ceTrack1 with missingFrames := n } := List.mem_singleton.mp ht
      rw [heq]
      show n ≠ 0
      omega
    · have hn51 : n = 51 := by omega
      rw [hn51, emptyInput_iterates51] at ht
      exact absurd ht (List.not_mem_nil t)

/-! ### Track-id structure -/

lemma ageTrack_id (t : TrackedObject) : (ageTrack t).id = t.id := rfl

/-- The matching fold appends the processed tracks in order, preserving the
id sequence. -/
lemma foldl_matchStep_tracks_map_id :
    ∀ (l : List TrackedObject) (acc : List Det × List ℕ × List TrackedObject),
      ((l.foldl matchStep acc).2.2).map TrackedObject.id =
        (acc.2.2).map TrackedObject.id ++ l.map TrackedObject.id := by
  intro l
  induction l with
  | nil => intro acc; simp
  | cons t rest ih =>
    intro acc
    rw [List.foldl_cons, ih (matchStep acc t)]
    rcases matchStep_cases acc t with heq | ⟨i, d, b, -, -, -, -, heq⟩
    · rw [heq]; simp
    · rw [heq]; simp [matchUpdate_id]

/-- The creation fold appends freshly numbered tracks: the id sequence
grows by a contiguous run starting at the current `nextId`. -/
lemma foldl_createStep_ids (timestamp : ℤ) :
    ∀ (l : List ℕ) (acc : List Det × List TrackedObject × ℕ),
      ∃ k, (l.foldl (createStep timestamp) acc).2.2 = acc.2.2 + k ∧
        ((l.foldl (createStep timestamp) acc).2.1).map TrackedObject.id =
          (acc.2.1).map TrackedObject.id ++ List.range' acc.2.2 k := by
  intro l
  induction l with
  | nil => intro acc; exact ⟨0, rfl, by simp⟩
  | cons i rest ih =>
    intro acc
    rw [List.foldl_cons]
    rcases createStep_cases timestamp acc i with heq | ⟨d, b, -, -, heq⟩
    · rw [heq]; exact ih acc
    · rw [heq]
      obtain ⟨k, hk1, hk2⟩ := ih (acc.1.set i (createAnnotate acc.2.2 d),
        acc.2.1 ++ [newTrackFor timestamp acc.2.2 d b], acc.2.2 + 1)
      refine ⟨k + 1, ?_, ?_⟩
      · rw [hk1]
        show acc.2.2 + 1 + k = acc.2.2 + (k + 1)
        omega
      rw [hk2]
      show ((acc.2.1 ++ [newTrackFor timestamp acc.2.2 d b]).map TrackedObject.id) ++
          List.range' (acc.2.2 + 1) k = _
      rw [List.map_append]
      have : List.range' acc.2.2 (k + 1) = acc.2.2 :: List.range' (acc.2.2 + 1) k :=
        List.range'_succ acc.2.2 k 1
      rw [this]
      simp [newTrackFor]

/-- Through one `update`, the id sequence of the (pre-filter) track store
is the old id sequence extended by a contiguous fresh run. -/
lemma createPhase_ids (s : TrackerState) (dets : List Det) (ts : ℤ) :
    ∃ k, (createPhase s dets ts).2.2 = s.nextId + k ∧
      ((createPhase s dets ts).2.1).map TrackedObject.id =
        s.tracks.map TrackedObject.id ++ List.range' s.nextId k := by
  obtain ⟨k, hk1, hk2⟩ := foldl_createStep_ids ts (matchPhase s dets).2.1
    ((matchPhase s dets).1, (matchPhase s dets).2.2, s.nextId)
  refine ⟨k, by rw [createPhase_def]; exact hk1, ?_⟩
  rw [createPhase_def, hk2]
  show ((matchPhase s dets).2.2).map TrackedObject.id ++ _ = _
  rw [matchPhase_def, foldl_matchStep_tracks_map_id]
  simp [List.map_map, Function.comp_def, ageTrack_id]

lemma range'_pairwise_lt : ∀ (n s : ℕ), (List.range' s n).Pairwise (· < ·) := by
  intro n
  induction n with
  | zero => intro s; exact List.Pairwise.nil
  | succ n ih =>
    intro s
    rw [List.range'_succ]
    refine List.Pairwise.cons ?_ (ih (s + 1))
    intro b hb
    rcases List.mem_range'.mp hb with ⟨i, hi, rfl⟩
    omega

/-- Every id of a post-`update` track either comes from a pre-`update`
track or is at least the old `nextId` (freshly assigned). -/
lemma update_id_provenance (s : TrackerState) (dets : List Det) (ts : ℤ) :
    ∀ t' ∈ (update s dets ts).1.tracks,
      (∃ t ∈ s.tracks, t.id = t'.id) ∨ s.nextId ≤ t'.id := by
  intro t' ht
  rw [update_tracks] at ht
  have ht2 : t' ∈ (createPhase s dets ts).2.1 := List.mem_of_mem_filter ht
  have hid : t'.id ∈ ((createPhase s dets ts).2.1).map TrackedObject.id :=
    List.mem_map_of_mem _ ht2
  obtain ⟨k, -, hk2⟩ := createPhase_ids s dets ts
  rw [hk2] at hid
  rcases List.mem_append.mp hid with h | h
  · obtain ⟨t, htm, hide⟩ := List.mem_map.mp h
    exact Or.inl ⟨t, htm, hide⟩
  · rcases List.mem_range'.mp h with ⟨i, hi, heq⟩
    omega

/-- `update` never decreases `nextId`. -/
lemma update_nextId_mono (s : TrackerState) (dets : List Det) (ts : ℤ) :
    s.nextId ≤ (update s dets ts).1.nextId := by
  obtain ⟨k, hk1, -⟩ := createPhase_ids s dets ts
  rw [update_nextId, hk1]
  omega

/-! ### Claim C9: reset semantics -/

/-- **C9.** After `reset()` the active track count is `0`; `reset` is
idempotent; and the tracks created by the next `update` are numbered
contiguously starting from id `1` (in particular the first created track
receives id `1`). -/
theorem C9_reset_semantics :
    (∀ s : TrackerState, getActiveTracksCount (reset s) = 0) ∧
    (∀ s : TrackerState, reset (reset s) = reset s) ∧
    (∀ (s : TrackerState) (dets : List Det) (ts : ℤ),
      ((update (reset s) dets ts).1.tracks).map TrackedObject.id =
        List.range' 1 ((update (reset s) dets ts).1.nextId - 1)) := by
  refine ⟨fun s => rfl, fun s => rfl, ?_⟩
  intro s dets ts
  have hm : matchPhase (reset s) dets = (dets, validIdxs dets, []) := rfl
  obtain ⟨k, hk1, hk2⟩ := createPhase_ids (reset s) dets ts
  have hall : ∀ t ∈ (createPhase (reset s) dets ts).2.1, t.missingFrames = 0 := by
    intro t ht
    rw [createPhase_def, hm] at ht
    rcases foldl_createStep_tracks_mem ts _ _ t ht with h0 | ⟨nid, d, b, rfl⟩
    · exact absurd h0 (List.not_mem_nil t)
    · rfl
  have hfilter : (update (reset s) dets ts).1.tracks =
      (createPhase (reset s) dets ts).2.1 := by
    rw [update_tracks]
    apply List.filter_eq_self.mpr
    intro t ht
    apply decide_eq_true
    rw [hall t ht]
    exact Nat.zero_le _
  rw [hfilter, hk2, update_nextId, hk1]
  show List.range' 1 k = List.range' 1 (1 + k - 1)
  congr 1
  omega

/-! ### Claim C5: track-id uniqueness and monotonicity -/

/-- The id invariant maintained by the tracker: the stored ids are strictly
increasing (hence pairwise distinct), all at least 1, and all below
`nextId`, which itself is at least 1. -/
def IdInv (s : TrackerState) : Prop :=
  (s.tracks.map TrackedObject.id).Pairwise (· < ·) ∧
  (∀ t ∈ s.tracks, 1 ≤ t.id ∧ t.id < s.nextId) ∧ 1 ≤ s.nextId

lemma update_preserves_IdInv (s : TrackerState) (dets : List Det) (ts : ℤ)
    (h : IdInv s) : IdInv (update s dets ts).1 := by
  obtain ⟨hpair, hbound, hnext⟩ := h
  obtain ⟨k, hk1, hk2⟩ := createPhase_ids s dets ts
  have hpair2 : (((createPhase s dets ts).2.1).map TrackedObject.id).Pairwise (· < ·) := by
    rw [hk2]
    rw [List.pairwise_append]
    refine ⟨hpair, range'_pairwise_lt k s.nextId, ?_⟩
    intro a ha b hb
    obtain ⟨t, htm, rfl⟩ := List.mem_map.mp ha
    rcases List.mem_range'.mp hb with ⟨i, hi, rfl⟩
    have := (hbound t htm).2
    omega
  constructor
  · rw [update_tracks]
    exact List.Pairwise.sublist (List.Sublist.map _ (List.filter_sublist _)) hpair2
  constructor
  · intro t' ht'
    have ht2 : t' ∈ (createPhase s dets ts).2.1 := by
      rw [update_tracks] at ht'
      exact List.mem_of_mem_filter ht'
    have hid : t'.id ∈ ((createPhase s dets ts).2.1).map TrackedObject.id :=
      List.mem_map_of_mem _ ht2
    rw [hk2] at hid
    rw [update_nextId, hk1]
    rcases List.mem_append.mp hid with hmem | hmem
    · obtain ⟨t, htm, hide⟩ := List.mem_map.mp hmem
      have := hbound t htm
      omega
    · rcases List.mem_range'.mp hmem with ⟨i, hi, heq⟩
      omega
  · rw [update_nextId, hk1]
    omega

/-- **C5.** Track-id uniqueness and monotonicity: across any sequence of
`update` calls from a fresh tracker, the stored ids are strictly
increasing in creation order (hence no two tracks share an id), every id
is at least 1 and below the current `nextId`; moreover an id that is below
`nextId` and no longer present (e.g. evicted) is never assigned again by
any further sequence of calls. -/
theorem C5_id_uniqueness :
    (∀ inputs : List (List Det × ℤ),
      ((inputs.foldl stepState initState).tracks.map TrackedObject.id).Pairwise (· < ·) ∧
      ∀ t ∈ (inputs.foldl stepState initState).tracks,
        1 ≤ t.id ∧ t.id < (inputs.foldl stepState initState).nextId) ∧
    (∀ (s : TrackerState) (ι : ℕ) (inputs : List (List Det × ℤ)),
      ι < s.nextId → (∀ t ∈ s.tracks, t.id ≠ ι) →
      ∀ t ∈ (inputs.foldl stepState s).tracks, t.id ≠ ι) := by
  constructor
  · have key : ∀ (inputs : List (List Det × ℤ)) (s : TrackerState), IdInv s →
        IdInv (inputs.foldl stepState s) := by
      intro inputs
      induction inputs with
      | nil => intro s h; exact h
      | cons inp rest ih =>
        intro s h
        rw [List.foldl_cons]
        exact ih _ (update_preserves_IdInv s inp.1 inp.2 h)
    intro inputs
    have hinit : IdInv initState :=
      ⟨List.Pairwise.nil, fun t ht => absurd ht (List.not_mem_nil t), le_refl 1⟩
    obtain ⟨h1, h2, -⟩ := key inputs initState hinit
    exact ⟨h1, h2⟩
  · intro s ι inputs
    induction inputs generalizing s with
    | nil => intro _ habs t ht; exact habs t ht
    | cons inp rest ih =>
      intro hlt habs
      rw [List.foldl_cons]
      refine ih (stepState s inp) ?_ ?_
      · exact lt_of_lt_of_le hlt (update_nextId_mono s inp.1 inp.2)
      · intro t' ht' heq
        rcases update_id_provenance s inp.1 inp.2 t' ht' with ⟨t, htm, hide⟩ | hge
        · exact habs t htm (hide.trans heq)
        · omega

/-- Witness for C5's reassignment clause: starting from a state whose
`nextId` is 2 with no track of id 1 stored, id 1 never reappears over a
concrete call sequence. -/
theorem C5_witness :
    ¬ 1 ∈ ((([(([exDet ⟨0,0,100,100⟩] : List Det), (0:ℤ)), (([]: List Det), (1:ℤ))]).foldl
        stepState { tracks := [], nextId := 2 }).tracks.map TrackedObject.id) := by
  intro hc
  obtain ⟨t, htm, hid⟩ := List.mem_map.mp hc
  exact C5_id_uniqueness.2 { tracks := [], nextId := 2 } 1
    [(([exDet ⟨0,0,100,100⟩] : List Det), (0:ℤ)), (([]: List Det), (1:ℤ))]
    (by decide) (fun t ht => absurd ht (List.not_mem_nil t)) t htm hid

/-! ### Claim C7: lane-change classification -/

/-- Lane classification inside a matched update: the detection mirrors the
track's lane status; once the post-append history has at least 2 entries
the status is `LaneChange` exactly when the lateral displacement against
the entry `min(length, 4)` slots back exceeds `0.03`, and `Stable`
otherwise; with fewer than 2 entries the previous status is kept. -/
lemma matchUpdate_lane_spec (track : TrackedObject) (det : Det) (b : Box2d) :
    (matchUpdate track det b).2.laneEvent = some ((matchUpdate track det b).1.laneStatus) ∧
    (2 ≤ ((matchUpdate track det b).1.history).length →
      (matchUpdate track det b).1.laneStatus =
        (if (0.03 : ℚ) < |(matchUpdate track det b).1.centroid.1 -
            (((matchUpdate track det b).1.history).getD
              (((matchUpdate track det b).1.history).length -
                min ((matchUpdate track det b).1.history).length 4) (0, 0)).1|
         then LaneStatus.laneChange else LaneStatus.stable)) ∧
    (¬ 2 ≤ ((matchUpdate track det b).1.history).length →
      (matchUpdate track det b).1.laneStatus = track.laneStatus) := by
  refine ⟨rfl, ?_, ?_⟩
  · intro h2
    exact if_pos h2
  · intro h2
    exact if_neg h2

/-- A matched update leaves the lane status unchanged or sets it to
`LaneChange` / `Stable` — never to `Merging`. -/
lemma matchUpdate_lane_cases (track : TrackedObject) (det : Det) (b : Box2d) :
    (matchUpdate track det b).1.laneStatus = track.laneStatus ∨
    (matchUpdate track det b).1.laneStatus = LaneStatus.laneChange ∨
    (matchUpdate track det b).1.laneStatus = LaneStatus.stable := by
  by_cases h : 2 ≤ ((matchUpdate track det b).1.history).length
  · right
    rw [(matchUpdate_lane_spec track det b).2.1 h]
    split
    · exact Or.inl rfl
    · exact Or.inr rfl
  · exact Or.inl ((matchUpdate_lane_spec track det b).2.2 h)

/-- **C7.** Lane-change classification: on a successful match, once the
(post-append) history has at least 2 entries, `laneStatus` is set to
`LaneChange` exactly when the lateral displacement against the history
entry `length − min(length, 4)` exceeds `0.03` and to `Stable` otherwise
(with fewer entries the old status is kept), the matched detection's
`laneEvent` mirrors the track; and no `update` ever produces the `Merging`
value, in the track store or on a returned detection. -/
theorem C7_lane_classification :
    (∀ (track : TrackedObject) (det : Det) (b : Box2d),
      (matchUpdate track det b).2.laneEvent =
        some ((matchUpdate track det b).1.laneStatus) ∧
      (2 ≤ ((matchUpdate track det b).1.history).length →
        ((matchUpdate track det b).1.laneStatus = LaneStatus.laneChange ↔
          (0.03 : ℚ) < |(matchUpdate track det b).1.centroid.1 -
            (((matchUpdate track det b).1.history).getD
              (((matchUpdate track det b).1.history).length -
                min ((matchUpdate track det b).1.history).length 4) (0, 0)).1|) ∧
        ((matchUpdate track det b).1.laneStatus = LaneStatus.stable ↔
          ¬ (0.03 : ℚ) < |(matchUpdate track det b).1.centroid.1 -
            (((matchUpdate track det b).1.history).getD
              (((matchUpdate track det b).1.history).length -
                min ((matchUpdate track det b).1.history).length 4) (0, 0)).1|)) ∧
      (¬ 2 ≤ ((matchUpdate track det b).1.history).length →
        (matchUpdate track det b).1.laneStatus = track.laneStatus)) ∧
    (∀ (s : TrackerState) (dets : List Det) (ts : ℤ),
      (∀ t ∈ s.tracks, t.laneStatus ≠ LaneStatus.merging) →
      (∀ t' ∈ (update s dets ts).1.tracks, t'.laneStatus ≠ LaneStatus.merging) ∧
      (∀ (i : ℕ) (d : Det), dets[i]? = some d → d.laneEvent ≠ some LaneStatus.merging →
        ∃ d', ((update s dets ts).2)[i]? = some d' ∧
          d'.laneEvent ≠ some LaneStatus.merging)) := by
  constructor
  · intro track det b
    refine ⟨(matchUpdate_lane_spec track det b).1, ?_, (matchUpdate_lane_spec track det b).2.2⟩
    intro h2
    rw [(matchUpdate_lane_spec track det b).2.1 h2]
    constructor
    · split
      · rename_i hx
        exact ⟨fun _ => hx, fun _ => rfl⟩
      · rename_i hx
        exact ⟨fun hc => absurd hc (by simp), fun hc => absurd hc hx⟩
    · split
      · rename_i hx
        exact ⟨fun hc => absurd hc (by simp), fun hc => absurd hx hc⟩
      · rename_i hx
        exact ⟨fun _ => hx, fun _ => rfl⟩
  · intro s dets ts hmerg
    constructor
    · intro t' ht'
      rw [update_tracks] at ht'
      have ht2 : t' ∈ (createPhase s dets ts).2.1 := List.mem_of_mem_filter ht'
      rw [createPhase_def] at ht2
      rcases foldl_createStep_tracks_mem ts _ _ t' ht2 with h0 | ⟨nid, d, b, rfl⟩
      · rw [matchPhase_def] at h0
        rcases foldl_matchStep_tracks_mem _ _ t' h0 with h1 | ⟨t, htl, hcase⟩
        · exact absurd h1 (List.not_mem_nil t')
        · obtain ⟨t0, ht0, rfl⟩ := List.mem_map.mp htl
          have hl0 : (ageTrack t0).laneStatus ≠ LaneStatus.merging := hmerg t0 ht0
          rcases hcase with rfl | ⟨d, b, rfl⟩
          · exact hl0
          · rcases matchUpdate_lane_cases (ageTrack t0) d b with he | he | he
            · rw [he]; exact hl0
            · rw [he]; simp
            · rw [he]; simp
      · show (newTrackFor ts nid d b).laneStatus ≠ LaneStatus.merging
        simp [newTrackFor]
    · intro i d hd hlane
      obtain ⟨d', hd', hP⟩ := update_entry
        (fun a b' => b'.laneEvent = a.laneEvent ∨
          ∃ ls, b'.laneEvent = some ls ∧ ls ≠ LaneStatus.merging)
        (fun a b' c hab hbc => by
          rcases hbc with h1 | ⟨ls, h1, h2⟩
          · rw [h1]; exact hab
          · exact Or.inr ⟨ls, h1, h2⟩)
        (fun d0 => Or.inl rfl) s dets ts
        (fun t htm d0 b => by
          obtain ⟨t0, ht0, rfl⟩ := List.mem_map.mp htm
          refine Or.inr ⟨(matchUpdate (ageTrack t0) d0 b).1.laneStatus,
            (matchUpdate_lane_spec (ageTrack t0) d0 b).1, ?_⟩
          rcases matchUpdate_lane_cases (ageTrack t0) d0 b with he | he | he
          · rw [he]; exact hmerg t0 ht0
          · rw [he]; simp
          · rw [he]; simp)
        (fun d0 nid => Or.inr ⟨LaneStatus.stable, rfl, by simp⟩)
        (fun tr dom d0 => Or.inl (flagOne_fields tr dom d0).2.2.2.2.2.2.2.1)
        i d hd
      refine ⟨d', hd', ?_⟩
      rcases hP with h1 | ⟨ls, h1, h2⟩
      · rw [h1]; exact hlane
      · rw [h1]
        intro hc
        exact h2 (Option.some.inj hc)

/-- Witness for C7: a concrete matched update runs the lane logic (its
history reaches 2 entries), and a concrete `update` on a merging-free
state produces no `Merging` status. -/
theorem C7_witness :
    ((matchUpdate ceTrack1 (exDet ⟨0,0,100,100⟩) ⟨0,0,100,100⟩).1.laneStatus =
        LaneStatus.stable ↔
      ¬ (0.03 : ℚ) <
        |(matchUpdate ceTrack1 (exDet ⟨0,0,100,100⟩) ⟨0,0,100,100⟩).1.centroid.1 -
          (((matchUpdate ceTrack1 (exDet ⟨0,0,100,100⟩) ⟨0,0,100,100⟩).1.history).getD
            (((matchUpdate ceTrack1 (exDet ⟨0,0,100,100⟩) ⟨0,0,100,100⟩).1.history).length -
              min ((matchUpdate ceTrack1 (exDet ⟨0,0,100,100⟩)
                ⟨0,0,100,100⟩).1.history).length 4) (0, 0)).1|) ∧
    (∀ t' ∈ (update oneTrackState [] 0).1.tracks, t'.laneStatus ≠ LaneStatus.merging) := by
  constructor
  · exact ((C7_lane_classification.1 ceTrack1 (exDet ⟨0,0,100,100⟩) ⟨0,0,100,100⟩).2.1
      (by decide)).2
  · exact ((C7_lane_classification.2 oneTrackState [] 0
      (fun t ht => by rw [List.mem_singleton.mp ht]; simp [ceTrack1])).1)

/-! ### Claim C4: wrong-way detection -/

lemma jsSign_pos {q : ℚ} (h : 0 < q) : jsSign q = 1 := if_pos h

lemma jsSign_neg {q : ℚ} (h : q < 0) : jsSign q = -1 := by
  unfold jsSign
  rw [if_neg (by linarith), if_pos h]

/-- On a duplicate-free index list, the flag fold rewrites each listed
entry to `flagOne` of its pre-fold value. -/
lemma foldl_flagStep_at (tracks : List TrackedObject) (dominantDy : ℚ) :
    ∀ (l : List ℕ) (dets : List Det) (j : ℕ) (d : Det), l.Nodup → j ∈ l →
      dets[j]? = some d →
      ((l.foldl (flagStep tracks dominantDy) dets))[j]? =
        some (flagOne tracks dominantDy d) := by
  intro l
  induction l with
  | nil => intro dets j d _ hmem; exact absurd hmem (List.not_mem_nil j)
  | cons i rest ih =>
    intro dets j d hnd hmem hget
    have hnd2 := List.nodup_cons.mp hnd
    rw [List.foldl_cons]
    rcases List.mem_cons.mp hmem with rfl | hmem2
    · have hlt : j < dets.length := (List.getElem?_eq_some.mp hget).1
      have hstep : flagStep tracks dominantDy dets j =
          dets.set j (flagOne tracks dominantDy d) := by
        unfold flagStep
        rw [hget]
      rw [hstep, foldl_flagStep_untouched tracks dominantDy rest _ j hnd2.1]
      exact List.getElem?_set_self hlt
    · have hji : j ≠ i := fun hc => hnd2.1 (hc ▸ hmem2)
      rcases flagStep_cases tracks dominantDy dets i with heq | ⟨d0, -, heq⟩
      · rw [heq]
        exact ih dets j d hnd2.2 hmem2 hget
      · rw [heq]
        refine ih _ j d hnd2.2 hmem2 ?_
        rw [List.getElem?_set_ne (fun hc => hji hc.symm)]
        exact hget

/-- `update` applies exactly `flagOne` — with the post-creation track store
and its dominant flow — to every valid detection index. -/
lemma update_flag_at (s : TrackerState) (dets : List Det) (ts : ℤ) (i : ℕ) (d : Det)
    (hi : i ∈ validIdxs dets) (hd : (createPhase s dets ts).1[i]? = some d) :
    ((update s dets ts).2)[i]? =
      some (flagOne (createPhase s dets ts).2.1
        (dominantFlow (createPhase s dets ts).2.1) d) := by
  rw [update_dets]
  exact foldl_flagStep_at _ _ (validIdxs dets) _ i d (validIdxs_nodup dets) hi hd

/-- For a tracked detection, `flagOne` assigns `isWrongWay = true` exactly
when both magnitudes exceed `0.005` and the signs differ; otherwise the
field keeps its previous value. -/
lemma flagOne_wrongWay_spec (tr : List TrackedObject) (dom : ℚ) (d : Det)
    (track : TrackedObject) (h0 : ¬ d.trackId.getD 0 = 0)
    (hfind : tr.find? (fun t => d.trackId == some t.id) = some track) :
    (flagOne tr dom d).isWrongWay =
      (if (0.005 : ℚ) < |dom| ∧ (0.005 : ℚ) < |track.dy| ∧ jsSign dom ≠ jsSign track.dy
       then some true else d.isWrongWay) := by
  unfold flagOne
  rw [if_neg h0, hfind]
  dsimp only
  by_cases hww : (0.005 : ℚ) < |dom| ∧ (0.005 : ℚ) < |track.dy| ∧
      jsSign dom ≠ jsSign track.dy
  · rw [if_pos hww, if_pos hww]
  · rw [if_neg hww, if_neg hww]
    split <;> rfl

/-- **C4.** Wrong-way detection: the dominant flow is the arithmetic mean
of `dy` over the tracks with `missingFrames = 0` and `|dy| > 0.001` (`0`
when that set is empty); `update` applies exactly the per-detection flag
body, with the post-creation store and its dominant flow, to every valid
detection; a tracked detection is assigned `isWrongWay = true` exactly
when `|dominantFlow| > 0.005`, `|track.dy| > 0.005` and the two signs
differ (sign difference under those bounds being exactly strict
opposition); and in the five-up/one-down scenario only the sixth
detection is flagged. -/
theorem C4_wrong_way :
    (∀ tracks : List TrackedObject,
      (∀ t, t ∈ activeMovingTracks tracks ↔
        t ∈ tracks ∧ t.missingFrames = 0 ∧ (0.001 : ℚ) < |t.dy|) ∧
      (activeMovingTracks tracks = [] → dominantFlow tracks = 0) ∧
      (activeMovingTracks tracks ≠ [] →
        dominantFlow tracks =
          ((activeMovingTracks tracks).map TrackedObject.dy).sum /
            ((activeMovingTracks tracks).length : ℚ))) ∧
    (∀ (s : TrackerState) (dets : List Det) (ts : ℤ) (i : ℕ) (d : Det),
      i ∈ validIdxs dets → (createPhase s dets ts).1[i]? = some d →
      ((update s dets ts).2)[i]? =
        some (flagOne (createPhase s dets ts).2.1
          (dominantFlow (createPhase s dets ts).2.1) d)) ∧
    (∀ (tr : List TrackedObject) (dom : ℚ) (d : Det) (track : TrackedObject),
      ¬ d.trackId.getD 0 = 0 →
      tr.find? (fun t => d.trackId == some t.id) = some track →
      (flagOne tr dom d).isWrongWay =
        (if (0.005 : ℚ) < |dom| ∧ (0.005 : ℚ) < |track.dy| ∧
            jsSign dom ≠ jsSign track.dy
         then some true else d.isWrongWay)) ∧
    (∀ a b : ℚ, (0.005 : ℚ) < |a| → (0.005 : ℚ) < |b| →
      (jsSign a ≠ jsSign b ↔ (0 < a ∧ b < 0) ∨ (a < 0 ∧ 0 < b))) ∧
    ((update (update initState [flowDet 0 0, flowDet 1 0, flowDet 2 0, flowDet 3 0,
        flowDet 4 0, flowDet 5 0] 0).1
      [flowDet 0 20, flowDet 1 20, flowDet 2 20, flowDet 3 20,
        flowDet 4 20, flowDet 5 (-20)] 1).2.map Det.isWrongWay =
      [none, none, none, none, none, some true]) := by
  refine ⟨?_, ?_, ?_, ?_, ?_⟩
  · intro tracks
    refine ⟨?_, ?_, ?_⟩
    · intro t
      simp [activeMovingTracks, List.mem_filter]
    · intro h
      simp [dominantFlow, h]
    · intro h
      have hpos : 0 < (activeMovingTracks tracks).length := List.length_pos.mpr h
      simp only [dominantFlow]
      rw [if_pos hpos]
  · intro s dets ts i d hi hd
    exact update_flag_at s dets ts i d hi hd
  · intro tr dom d track h0 hfind
    exact flagOne_wrongWay_spec tr dom d track h0 hfind
  · intro a b ha hb
    have ha0 : a ≠ 0 := by
      intro h
      rw [h] at ha
      norm_num at ha
    have hb0 : b ≠ 0 := by
      intro h
      rw [h] at hb
      norm_num at hb
    rcases ha0.lt_or_lt with hA | hA <;> rcases hb0.lt_or_lt with hB | hB
    · rw [jsSign_neg hA, jsSign_neg hB]
      constructor
      · intro hc
        exact absurd rfl hc
      · rintro (⟨h3, -⟩ | ⟨-, h3⟩) <;> linarith
    · rw [jsSign_neg hA, jsSign_pos hB]
      exact ⟨fun _ => Or.inr ⟨hA, hB⟩, fun _ => by decide⟩
    · rw [jsSign_pos hA, jsSign_neg hB]
      exact ⟨fun _ => Or.inl ⟨hA, hB⟩, fun _ => by decide⟩
    · rw [jsSign_pos hA, jsSign_pos hB]
      constructor
      · intro hc
        exact absurd rfl hc
      · rintro (⟨-, h3⟩ | ⟨h3, -⟩) <;> linarith
  · norm_num [update, matchPhase, createPhase, matchStep, bestScan, matchUpdate, calculateIoU,
      getCentroid, validIdxs, createStep, flagStep, flagOne, dominantFlow, activeMovingTracks,
      jsSign, initState, isValidDet, iouThreshold, SPEED_LIMIT, maxMissingFrames, ageTrack,
      exDet, flowDet, max_def, min_def, List.getD, List.range_succ, abs_of_nonneg,
      abs_of_nonpos]

/-- Witness for C4: the sign-difference equivalence and the flag rule at
concrete values (dominant flow `1/75`, a track moving at `-0.02`). -/
theorem C4_witness :
    (jsSign (1/75 : ℚ) ≠ jsSign (-(2:ℚ)/100) ↔
      (0 < (1/75 : ℚ) ∧ (-(2:ℚ)/100) < 0) ∨ ((1/75 : ℚ) < 0 ∧ 0 < (-(2:ℚ)/100))) ∧
    (flagOne [ceTrack2] (1/75) { exDet ⟨0,0,100,100⟩ with trackId := some 2 }).isWrongWay =
      (if (0.005 : ℚ) < |(1/75 : ℚ)| ∧ (0.005 : ℚ) < |ceTrack2.dy| ∧
          jsSign (1/75 : ℚ) ≠ jsSign ceTrack2.dy
       then some true else ({ exDet ⟨0,0,100,100⟩ with trackId := some 2 } : Det).isWrongWay) :=
  ⟨C4_wrong_way.2.2.2.1 (1/75) (-(2:ℚ)/100) (by rw [abs_of_nonneg] <;> norm_num)
      (by rw [abs_of_nonpos] <;> norm_num),
   C4_wrong_way.2.2.1 [ceTrack2] (1/75) { exDet ⟨0,0,100,100⟩ with trackId := some 2 }
      ceTrack2 (by decide) rfl⟩

/-! ### Claim C10: violation flags are never cleared -/

/-- The flag-loop body's exact effect on the two violation flags: either
the detection does not resolve to a track (falsy `trackId`, or the lookup
finds none) and both flags keep their value, or it resolves to `track`
and each flag is set to `true` exactly when its threshold is met, keeping
its previous value otherwise. -/
lemma flagOne_flags_spec (tr : List TrackedObject) (dom : ℚ) (d0 : Det) :
    ((flagOne tr dom d0).isSpeeding = d0.isSpeeding ∧
      (flagOne tr dom d0).isWrongWay = d0.isWrongWay) ∨
    ∃ track, tr.find? (fun t => d0.trackId == some t.id) = some track ∧
      (flagOne tr dom d0).isSpeeding =
        (if SPEED_LIMIT < track.speed then some true else d0.isSpeeding) ∧
      (flagOne tr dom d0).isWrongWay =
        (if (0.005 : ℚ) < |dom| ∧ (0.005 : ℚ) < |track.dy| ∧
            jsSign dom ≠ jsSign track.dy
         then some true else d0.isWrongWay) := by
  by_cases h0 : d0.trackId.getD 0 = 0
  · have heq : flagOne tr dom d0 = d0 := by
      unfold flagOne
      rw [if_pos h0]
    exact Or.inl ⟨by rw [heq], by rw [heq]⟩
  · cases hfind : tr.find? (fun t => d0.trackId == some t.id) with
    | none =>
        have heq : flagOne tr dom d0 = d0 := by
          unfold flagOne
          rw [if_neg h0, hfind]
        exact Or.inl ⟨by rw [heq], by rw [heq]⟩
    | some track =>
        refine Or.inr ⟨track, rfl, ?_, ?_⟩
        · unfold flagOne
          rw [if_neg h0, hfind]
          dsimp only
          by_cases hww : (0.005 : ℚ) < |dom| ∧ (0.005 : ℚ) < |track.dy| ∧
              jsSign dom ≠ jsSign track.dy
          · rw [if_pos hww]
            split <;> rfl
          · rw [if_neg hww]
            split <;> rfl
        · unfold flagOne
          rw [if_neg h0, hfind]
          dsimp only
          by_cases hww : (0.005 : ℚ) < |dom| ∧ (0.005 : ℚ) < |track.dy| ∧
              jsSign dom ≠ jsSign track.dy
          · rw [if_pos hww, if_pos hww]
          · rw [if_neg hww, if_neg hww]
            split <;> rfl

/-- **C10.** `update` only ever assigns `true` to `isSpeeding` and
`isWrongWay`, and only when the respective thresholds are met: every
returned detection either keeps both input flag values exactly (when it
does not resolve to a track in the flag pass), or resolves to a track of
the post-creation store and has `isSpeeding` set to `true` exactly when
`track.speed > 80` and `isWrongWay` set to `true` exactly when both
magnitude thresholds and the sign difference hold — each flag keeping its
input value otherwise.  In particular a flag entering `true` leaves
`true`, and a tracked but non-violating detection keeps its prior
values. -/
theorem C10_flags_never_cleared :
    ∀ (s : TrackerState) (dets : List Det) (ts : ℤ) (i : ℕ) (d : Det),
      dets[i]? = some d →
      ∃ d', ((update s dets ts).2)[i]? = some d' ∧
        (d'.isSpeeding = d.isSpeeding ∨ d'.isSpeeding = some true) ∧
        (d'.isWrongWay = d.isWrongWay ∨ d'.isWrongWay = some true) ∧
        (d.isSpeeding = some true → d'.isSpeeding = some true) ∧
        (d.isWrongWay = some true → d'.isWrongWay = some true) ∧
        ((d'.isSpeeding = d.isSpeeding ∧ d'.isWrongWay = d.isWrongWay) ∨
          ∃ track,
            ((createPhase s dets ts).2.1).find?
              (fun t => d'.trackId == some t.id) = some track ∧
            d'.isSpeeding =
              (if SPEED_LIMIT < track.speed then some true else d.isSpeeding) ∧
            d'.isWrongWay =
              (if (0.005 : ℚ) < |dominantFlow (createPhase s dets ts).2.1| ∧
                  (0.005 : ℚ) < |track.dy| ∧
                  jsSign (dominantFlow (createPhase s dets ts).2.1) ≠ jsSign track.dy
               then some true else d.isWrongWay)) := by
  intro s dets ts i d h
  by_cases hiv : i ∈ validIdxs dets
  · obtain ⟨d1, h1, p1⟩ := foldl_matchStep_entry
      (fun a b => b.isSpeeding = a.isSpeeding ∧ b.isWrongWay = a.isWrongWay)
      (fun a b c hab hbc => ⟨hbc.1.trans hab.1, hbc.2.trans hab.2⟩)
      (fun d0 => ⟨rfl, rfl⟩) (s.tracks.map ageTrack) (dets, validIdxs dets, []) i d
      (fun t _ d0 b => ⟨(matchUpdate_det_fields t d0 b).2.2.2.2.2.2.2.2.1,
        (matchUpdate_det_fields t d0 b).2.2.2.2.2.2.2.2.2⟩) h
    obtain ⟨d2, h2, p2⟩ := foldl_createStep_entry ts
      (fun a b => b.isSpeeding = a.isSpeeding ∧ b.isWrongWay = a.isWrongWay)
      (fun a b c hab hbc => ⟨hbc.1.trans hab.1, hbc.2.trans hab.2⟩)
      (fun d0 => ⟨rfl, rfl⟩)
      (fun d0 nid => ⟨(createAnnotate_fields nid d0).2.2.2.2.2.2.2.2.1,
        (createAnnotate_fields nid d0).2.2.2.2.2.2.2.2.2⟩)
      (matchPhase s dets).2.1
      ((matchPhase s dets).1, (matchPhase s dets).2.2, s.nextId) i d1 h1
    have hda : d2.isSpeeding = d.isSpeeding := p2.1.trans p1.1
    have hdb : d2.isWrongWay = d.isWrongWay := p2.2.trans p1.2
    have hd' := update_flag_at s dets ts i d2 hiv h2
    rcases flagOne_flags_spec (createPhase s dets ts).2.1
        (dominantFlow (createPhase s dets ts).2.1) d2 with ⟨ha, hb⟩ | ⟨track, hfind, ha, hb⟩
    · exact ⟨_, hd', Or.inl (ha.trans hda), Or.inl (hb.trans hdb),
        fun ht => (ha.trans hda).trans ht, fun ht => (hb.trans hdb).trans ht,
        Or.inl ⟨ha.trans hda, hb.trans hdb⟩⟩
    · have htrk : (flagOne (createPhase s dets ts).2.1
          (dominantFlow (createPhase s dets ts).2.1) d2).trackId = d2.trackId :=
        (flagOne_fields _ _ d2).2.2.2.2.2.1
      have hfind2 : ((createPhase s dets ts).2.1).find?
          (fun t => (flagOne (createPhase s dets ts).2.1
            (dominantFlow (createPhase s dets ts).2.1) d2).trackId == some t.id) =
          some track := by
        have hfun : (fun t : TrackedObject => (flagOne (createPhase s dets ts).2.1
            (dominantFlow (createPhase s dets ts).2.1) d2).trackId == some t.id) =
            (fun t : TrackedObject => d2.trackId == some t.id) := by
          funext t
          rw [htrk]
        rw [hfun]
        exact hfind
      refine ⟨_, hd', ?_, ?_, ?_, ?_, Or.inr ⟨track, hfind2, ?_, ?_⟩⟩
      · rw [ha, hda]
        split
        · exact Or.inr rfl
        · exact Or.inl rfl
      · rw [hb, hdb]
        split
        · exact Or.inr rfl
        · exact Or.inl rfl
      · intro ht
        rw [ha, hda]
        split
        · rfl
        · exact ht
      · intro ht
        rw [hb, hdb]
        split
        · rfl
        · exact ht
      · rw [ha, hda]
      · rw [hb, hdb]
  · refine ⟨d, ?_, Or.inl rfl, Or.inl rfl, fun ht => ht, fun ht => ht, Or.inl ⟨rfl, rfl⟩⟩
    rw [update_untouched s dets ts i hiv]
    exact h

/-- Witness for C10: a vehicle detection entering with `isWrongWay = true`
on a fresh tracker still carries the flag after a concrete `update`
call. -/
theorem C10_witness :
    ∃ d', ((update initState [{ exDet ⟨0,0,100,100⟩ with isWrongWay := some true }] 0).2)[0]? =
        some d' ∧ d'.isWrongWay = some true := by
  obtain ⟨d', hd', -, -, -, htw, -⟩ := C10_flags_never_cleared initState
    [{ exDet ⟨0,0,100,100⟩ with isWrongWay := some true }] 0 0
    { exDet ⟨0,0,100,100⟩ with isWrongWay := some true } rfl
  exact ⟨d', hd', htw rfl⟩


/-! ### Claim C1: match stability -/

lemma iouThreshold_pos : (0 : ℚ) < iouThreshold := by norm_num [iouThreshold]

/-- While the matching loop processes only tracks whose IoU with box `b`
(the box of detection `i`) is at or below the threshold, detection `i`
stays unassigned, every detection keeps its box, and the unassigned pool
stays inside the valid indices. -/
lemma match_fold_keep (dets : List Det) (i : ℕ) (b : Box2d) :
    ∀ (l : List TrackedObject) (acc : List Det × List ℕ × List TrackedObject),
      (∀ t' ∈ l, calculateIoU t'.box b ≤ iouThreshold) →
      (∀ j : ℕ, ((acc.1)[j]?).bind Det.box_2d = (dets[j]?).bind Det.box_2d) →
      i ∈ acc.2.1 →
      (∀ j ∈ acc.2.1, j ∈ validIdxs dets) →
      ((dets[i]?).bind Det.box_2d = some b) →
      (∀ j : ℕ, (((l.foldl matchStep acc).1)[j]?).bind Det.box_2d =
        (dets[j]?).bind Det.box_2d) ∧
      i ∈ (l.foldl matchStep acc).2.1 ∧
      (∀ j ∈ (l.foldl matchStep acc).2.1, j ∈ validIdxs dets) := by
  intro l
  induction l with
  | nil => intro acc _ h1 h2 h3 _; exact ⟨h1, h2, h3⟩
  | cons t' rest ih =>
    intro acc hle h1 h2 h3 hbi
    rw [List.foldl_cons]
    rcases matchStep_cases acc t' with heq | ⟨i2, d2, b2, hscan, hmem, hget, hbox, heq⟩
    · rw [heq]
      exact ih (acc.1, acc.2.1, acc.2.2 ++ [t'])
        (fun t ht => hle t (List.mem_cons_of_mem _ ht)) h1 h2 h3 hbi
    · rw [heq]
      have hii : i2 ≠ i := by
        intro hcontra
        subst hcontra
        rcases bestScan_some t'.box acc.1 acc.2.1 (none, 0) i2 hscan with hc | ⟨-, b0, hb0, ht0⟩
        · exact absurd hc (by simp)
        · rw [h1 i2, hbi] at hb0
          have hbb : b0 = b := (Option.some.inj hb0).symm
          subst hbb
          exact absurd ht0 (not_lt.mpr (hle t' (List.mem_cons_self _ _)))
      refine ih (acc.1.set i2 (matchUpdate t' d2 b2).2,
          acc.2.1.filter (fun j => decide (j ≠ i2)),
          acc.2.2 ++ [(matchUpdate t' d2 b2).1])
        (fun t ht => hle t (List.mem_cons_of_mem _ ht)) ?_ ?_ ?_ hbi
      · intro j
        by_cases hj : j = i2
        · subst hj
          have hlt : j < acc.1.length := (List.getElem?_eq_some.mp hget).1
          show ((acc.1.set j (matchUpdate t' d2 b2).2)[j]?).bind Det.box_2d = _
          rw [List.getElem?_set_self hlt]
          show (matchUpdate t' d2 b2).2.box_2d = _
          rw [(matchUpdate_det_fields t' d2 b2).2.2.2.2.1]
          rw [← h1 j, hget]
          rfl
        · show ((acc.1.set i2 (matchUpdate t' d2 b2).2)[j]?).bind Det.box_2d = _
          rw [List.getElem?_set_ne (fun hc => hj hc.symm)]
          exact h1 j
      · show i ∈ acc.2.1.filter (fun j => decide (j ≠ i2))
        rw [List.mem_filter]
        exact ⟨h2, by simpa using fun hc => hii hc.symm⟩
      · intro j hj
        exact h3 j (List.mem_of_mem_filter hj)

/-- **C1 (amended).** Match stability: if the store is `pre ++ tr :: post`,
the input holds a vehicle detection `d` at index `i` with box `b` such
that `iou(tr.box, b) > 0.15`, every *other* vehicle detection has strictly
lower IoU against `tr`, and every track created earlier than `tr` (those
in `pre`) has IoU at most the threshold with `b`, then `update` assigns
detection `i` the trackId of `tr`. -/
theorem C1_match_stability_amended :
    ∀ (s : TrackerState) (pre post : List TrackedObject) (tr : TrackedObject)
      (dets : List Det) (ts : ℤ) (i : ℕ) (d : Det) (b : Box2d),
      s.tracks = pre ++ tr :: post →
      dets[i]? = some d →
      d.box_2d = some b →
      d.type = DKind.vehicle →
      iouThreshold < calculateIoU tr.box b →
      (∀ (j : ℕ) (d' : Det) (b' : Box2d), j ≠ i → dets[j]? = some d' →
        d'.box_2d = some b' → d'.type = DKind.vehicle →
        calculateIoU tr.box b' < calculateIoU tr.box b) →
      (∀ t' ∈ pre, calculateIoU t'.box b ≤ iouThreshold) →
      ∃ d', ((update s dets ts).2)[i]? = some d' ∧ d'.trackId = some tr.id := by
  intro s pre post tr dets ts i d b htr hd hbox htype hthr hothers hpre
  have hbi : (dets[i]?).bind Det.box_2d = some b := by
    rw [hd]
    exact hbox
  have hvalid : isValidDet d = true := by
    unfold isValidDet
    rw [hbox, htype]
    rfl
  have hiv : i ∈ validIdxs dets := (mem_validIdxs dets i).mpr ⟨d, hd, hvalid⟩
  have hmapsplit : s.tracks.map ageTrack =
      pre.map ageTrack ++ ageTrack tr :: post.map ageTrack := by
    rw [htr, List.map_append, List.map_cons]
  have hfoldsplit : matchPhase s dets =
      (post.map ageTrack).foldl matchStep
        (matchStep ((pre.map ageTrack).foldl matchStep (dets, validIdxs dets, []))
          (ageTrack tr)) := by
    rw [matchPhase_def, hmapsplit, List.foldl_append, List.foldl_cons]
  obtain ⟨hA1, hA2, hA3⟩ := match_fold_keep dets i b (pre.map ageTrack)
    (dets, validIdxs dets, ([] : List TrackedObject))
    (by
      intro t' ht'
      obtain ⟨t0, ht0, rfl⟩ := List.mem_map.mp ht'
      exact hpre t0 ht0)
    (fun j => rfl) hiv (fun j hj => hj) hbi
  set accA := (pre.map ageTrack).foldl matchStep
    (dets, validIdxs dets, ([] : List TrackedObject)) with haccA
  have hbA : ((accA.1)[i]?).bind Det.box_2d = some b := by
    rw [hA1 i]
    exact hbi
  obtain ⟨d2, hget2, hbox2⟩ : ∃ d2, accA.1[i]? = some d2 ∧ d2.box_2d = some b := by
    cases hc : accA.1[i]? with
    | none => rw [hc] at hbA; simp at hbA
    | some dd =>
        rw [hc] at hbA
        exact ⟨dd, rfl, hbA⟩
  have hothersA : ∀ j ∈ accA.2.1, j ≠ i → ∀ b',
      ((accA.1)[j]?).bind Det.box_2d = some b' →
      calculateIoU (ageTrack tr).box b' < calculateIoU (ageTrack tr).box b := by
    intro j hj hij b' hb'
    obtain ⟨dj, hdj, hvj⟩ := (mem_validIdxs dets j).mp (hA3 j hj)
    rw [hA1 j, hdj] at hb'
    have hbj : dj.box_2d = some b' := hb'
    have htj : dj.type = DKind.vehicle := by
      unfold isValidDet at hvj
      rw [Bool.and_eq_true] at hvj
      exact of_decide_eq_true hvj.2
    exact hothers j dj b' hij hdj hbj htj
  have hscan : bestScan (ageTrack tr).box accA.1 accA.2.1 (none, 0) =
      (some i, calculateIoU (ageTrack tr).box b) :=
    bestScan_argmax (ageTrack tr).box accA.1 i b hbA hthr accA.2.1 (none, 0) hA2
      (lt_trans iouThreshold_pos hthr) hothersA
  have hscan1 : (bestScan (ageTrack tr).box accA.1 accA.2.1 (none, 0)).1 = some i := by
    rw [hscan]
  have hms : matchStep accA (ageTrack tr) =
      (accA.1.set i (matchUpdate (ageTrack tr) d2 b).2,
       accA.2.1.filter (fun j => decide (j ≠ i)),
       accA.2.2 ++ [(matchUpdate (ageTrack tr) d2 b).1]) := by
    unfold matchStep
    rw [hscan1]
    dsimp only
    rw [hget2]
    dsimp only
    rw [hbox2]
  have hltA : i < accA.1.length := (List.getElem?_eq_some.mp hget2).1
  have hBset : ((matchStep accA (ageTrack tr)).1)[i]? =
      some ((matchUpdate (ageTrack tr) d2 b).2) := by
    rw [hms]
    exact List.getElem?_set_self hltA
  have hBout : i ∉ (matchStep accA (ageTrack tr)).2.1 := by
    rw [hms]
    intro hc
    have h2 := (List.mem_filter.mp hc).2
    simp at h2
  obtain ⟨hC1, hC2⟩ := foldl_matchStep_untouched (post.map ageTrack)
    (matchStep accA (ageTrack tr)) i hBout
  have hMP1 : ((matchPhase s dets).1)[i]? = some ((matchUpdate (ageTrack tr) d2 b).2) := by
    rw [hfoldsplit]
    exact hC1.trans hBset
  have hMP2 : i ∉ (matchPhase s dets).2.1 := by
    rw [hfoldsplit]
    exact hC2
  have hCP1 : ((createPhase s dets ts).1)[i]? =
      some ((matchUpdate (ageTrack tr) d2 b).2) := by
    rw [createPhase_def, foldl_createStep_untouched ts (matchPhase s dets).2.1 _ i hMP2]
    exact hMP1
  have hfin := update_flag_at s dets ts i ((matchUpdate (ageTrack tr) d2 b).2) hiv hCP1
  refine ⟨flagOne (createPhase s dets ts).2.1 (dominantFlow (createPhase s dets ts).2.1)
    ((matchUpdate (ageTrack tr) d2 b).2), hfin, ?_⟩
  rw [(flagOne_fields _ _ _).2.2.2.2.2.1]
  exact (matchUpdate_det_fields (ageTrack tr) d2 b).2.2.2.2.2.1

/-- Counterexample to C1 as stated.  First scenario: the store holds
`ceTrack1` (id 1, box `[0,0,100,100]`) and `ceTrack2` (id 2, box
`[10,0,110,100]`), and the single input detection sits exactly at
`ceTrack2`'s box — IoU 1 against track 2, with no competing detection —
yet greedy matching in creation order lets track 1 (IoU 9/11 > 0.15)
claim it first, so the detection receives trackId 1, not 2.  Second
scenario: a single track and two identical detections at its box; the
detection at index 1 has no competitor with *higher* IoU, yet the tie is
broken in favour of index 0, and index 1 receives a fresh id 2 instead of
the track's id 1. -/
theorem C1_counterexample :
    (iouThreshold < calculateIoU ceTrack2.box ⟨10,0,110,100⟩ ∧
      (update ceState [exDet ⟨10,0,110,100⟩] 1).2.map Det.trackId = [some 1] ∧
      ceTrack2.id = 2) ∧
    (iouThreshold < calculateIoU ceTrack1.box ⟨0,0,100,100⟩ ∧
      (update oneTrackState [exDet ⟨0,0,100,100⟩, exDet ⟨0,0,100,100⟩] 1).2.map
        Det.trackId = [some 1, some 2] ∧
      ceTrack1.id = 1) := by
  refine ⟨⟨?_, ?_, rfl⟩, ?_, ?_, rfl⟩ <;>
    norm_num [update, matchPhase, createPhase, matchStep, bestScan, matchUpdate, calculateIoU,
      getCentroid, validIdxs, createStep, flagStep, flagOne, dominantFlow, activeMovingTracks,
      jsSign, initState, isValidDet, iouThreshold, SPEED_LIMIT, maxMissingFrames, ageTrack,
      exDet, ceState, oneTrackState, ceTrack1, ceTrack2, max_def, min_def, List.getD,
      List.range_succ, abs_of_nonneg, abs_of_nonpos]

/-- Witness for the amended C1: a single-track store and a single matching
detection; the detection receives the track's id. -/
theorem C1_witness :
    ∃ d', ((update oneTrackState [exDet ⟨0,0,100,100⟩] 1).2)[0]? = some d' ∧
      d'.trackId = some ceTrack1.id := by
  refine C1_match_stability_amended oneTrackState [] [] ceTrack1
    [exDet ⟨0,0,100,100⟩] 1 0 (exDet ⟨0,0,100,100⟩) ⟨0,0,100,100⟩
    rfl rfl rfl rfl ?_ ?_ ?_
  · norm_num [calculateIoU, ceTrack1, iouThreshold, max_def, min_def]
  · intro j d' b' hj hget hb ht
    cases j with
    | zero => exact absurd rfl hj
    | succ n => simp at hget
  · intro t' ht'
    exact absurd ht' (List.not_mem_nil t')
